import Mathlib

/-!
Verification of the ofxPointer pointer-event library
(`src/libs/ofxPointer/include/ofx/PointerEvents.h`).

The header file is the sole core source present; the companion
implementation file `libs/ofxPointer/src/PointerEvents.cpp` (bodies of
`PointerEvents::_dispatchPointerEvent`,
`PointerEventArgs::updateEstimatedPropertiesWithEvent`,
`PointerStroke::add`, the `PointerEventCollection` operations and
`PointShape::_calculateAxisAlignedSize`) is not part of the sources, so
those operations are modelled from the specification; each such
definition carries a doc comment starting with `Modelled from the spec:`.

The JSON interchange functions (`to_json` / `from_json`, lines 225-289,
536-583 and 936-985 of the header) are inline in the header and are
embedded here directly.  C++ `float` values are carried as `Rat`: the
serializers copy numbers verbatim and never compute with them.  Machine
integers are `Nat` / `Int` with explicit wrapping where the source casts
between widths.  nlohmann-json behaviour that matters here:
`j.value(key, dflt)` returns `dflt` when `key` is absent, throws when
`j` is not an object, and throws when the stored value has the wrong
kind; exceptions are embedded as `Except.error`.
-/

set_option maxHeartbeats 1000000

namespace ofx

/-- A JSON value, mirroring the nlohmann::json values the header
manipulates.  Numbers are carried exactly as rationals; the serializers
never do arithmetic on them. -/
inductive Json where
  | null : Json
  | bool (b : Bool) : Json
  | num (q : Rat) : Json
  | str (s : String) : Json
  | arr (elems : List Json) : Json
  | obj (fields : List (String × Json)) : Json

/-- Key lookup in a JSON object's field list (first match, as
`nlohmann::json::find`). -/
def jfind : List (String × Json) → String → Option Json
  | [], _ => none
  | (k, v) :: rest, key => if k = key then some v else jfind rest key

/-- `Except` success test (`isOk`). -/
def exceptOk {α : Type} : Except String α → Bool
  | .ok _ => true
  | .error _ => false

/-- Truncation of a rational toward zero, as C++ `static_cast` from a
floating value to an integer type.  Only ever reached with integral
rationals in the round-trip theorems. -/
def ratTruncToInt (q : Rat) : Int := q.num / (q.den : Int)

/-- `static_cast` to an unsigned `w`-bit integer. -/
def ratToU (w : Nat) (q : Rat) : Nat := ((ratTruncToInt q) % ((2 : Int) ^ w)).toNat

/-- `static_cast` from an unsigned `w`-bit value to the signed view. -/
def uToI (w : Nat) (n : Nat) : Int :=
  if n < 2 ^ (w - 1) then (n : Int) else (n : Int) - (2 : Int) ^ w

/-- `static_cast` to a signed `w`-bit integer. -/
def ratToI (w : Nat) (q : Rat) : Int := uToI w (ratToU w q)

/-- Reduction of an unbounded `Nat` to the unsigned `w`-bit range, the
normal form produced by a decode of an encoded unsigned field. -/
def normU (w : Nat) (n : Nat) : Nat := n % 2 ^ w

/-- Reduction of an unbounded `Int` to the signed `w`-bit range, the
normal form produced by a decode of an encoded signed field. -/
def normI (w : Nat) (i : Int) : Int := uToI w ((i % ((2 : Int) ^ w)).toNat)

/-- `j.value(key, dflt)` for a string field: default on absence, the
string on success, a type error otherwise. -/
def getStrD (fields : List (String × Json)) (key : String) (d : String) :
    Except String String :=
  match jfind fields key with
  | none => .ok d
  | some (Json.str s) => .ok s
  | some _ => .error key

/-- `j.value(key, dflt)` for a numeric field (nlohmann converts freely
between its number kinds, and only between them). -/
def getNumD (fields : List (String × Json)) (key : String) (d : Rat) :
    Except String Rat :=
  match jfind fields key with
  | none => .ok d
  | some (Json.num q) => .ok q
  | some _ => .error key

/-- `j.value(key, dflt)` for a boolean field. -/
def getBoolD (fields : List (String × Json)) (key : String) (d : Bool) :
    Except String Bool :=
  match jfind fields key with
  | none => .ok d
  | some (Json.bool b) => .ok b
  | some _ => .error key

/-- Conversion of a JSON array's elements to strings
(`get<std::set<std::string>>` element conversion). -/
def strsOf : List Json → Except String (List String)
  | [] => .ok []
  | Json.str s :: rest => do
      let tail ← strsOf rest
      .ok (s :: tail)
  | _ :: _ => .error "string"

/-- Construction of a `std::set<std::string>` from decoded elements:
the set holds each string once, in sorted order. -/
def sortDedup (l : List String) : List String :=
  (l.dedup).insertionSort (· ≤ ·)

/-- `j.value(key, std::set<std::string>())`. -/
def getStrSetD (fields : List (String × Json)) (key : String) :
    Except String (List String) :=
  match jfind fields key with
  | none => .ok []
  | some (Json.arr l) => do
      let ss ← strsOf l
      .ok (sortDedup ss)
  | some _ => .error key

/-! ## Value types (header lines 96-532) -/

/-- `PointShape::ShapeType` (header lines 107-111). -/
inductive ShapeType where
  | ELLIPSE : ShapeType
  | RECTANGLE : ShapeType
deriving DecidableEq

/-- `PointShape` (header lines 103-222); numeric members carried as
exact rationals. -/
structure PointShape where
  shapeType : ShapeType
  width : Rat
  height : Rat
  widthTolerance : Rat
  heightTolerance : Rat
  angleDeg : Rat
deriving DecidableEq

/-- The default-constructed `PointShape` (member initializers, header
lines 188-203). -/
def defaultPointShape : PointShape :=
  { shapeType := ShapeType.ELLIPSE, width := 1, height := 1,
    widthTolerance := 0, heightTolerance := 0, angleDeg := 0 }

/-- `glm::vec2`. -/
structure Vec2 where
  x : Rat
  y : Rat
deriving DecidableEq

/-- `Point` (header lines 295-532), the serialized members. -/
structure Point where
  position : Vec2
  precisePosition : Vec2
  shape : PointShape
  pressure : Rat
  tangentialPressure : Rat
  twistDeg : Rat
  tiltXDeg : Rat
  tiltYDeg : Rat
deriving DecidableEq

/-- The default-constructed `Point`. -/
def defaultPoint : Point :=
  { position := ⟨0, 0⟩, precisePosition := ⟨0, 0⟩, shape := defaultPointShape,
    pressure := 0, tangentialPressure := 0, twistDeg := 0,
    tiltXDeg := 0, tiltYDeg := 0 }

/-- `to_string(PointShape::ShapeType)` (header lines 225-236). -/
def to_string : ShapeType → String
  | ShapeType.ELLIPSE => "ELLIPSE"
  | ShapeType.RECTANGLE => "RECTANGLE"

/-- `from_json(const nlohmann::json&, PointShape::ShapeType&)` (header
lines 245-265).  The boolean records whether the unknown-value warning
was logged. -/
def fromJsonShapeType (s : String) : ShapeType × Bool :=
  if s ≠ "" then
    if s = to_string ShapeType.ELLIPSE then (ShapeType.ELLIPSE, false)
    else if s = to_string ShapeType.RECTANGLE then (ShapeType.RECTANGLE, false)
    else (ShapeType.ELLIPSE, true)
  else (ShapeType.ELLIPSE, true)

/-- `to_json(nlohmann::json&, const PointShape&)` (header lines
268-278). -/
def PointShape.toJson (v : PointShape) : Json :=
  Json.obj [
    ("shape_type", Json.str (to_string v.shapeType)),
    ("width", Json.num v.width),
    ("height", Json.num v.height),
    ("width_tolerance", Json.num v.widthTolerance),
    ("height_tolerance", Json.num v.heightTolerance),
    ("angle_deg", Json.num v.angleDeg)
  ]

/-- `from_json(const nlohmann::json&, PointShape&)` (header lines
281-289).  `j.value` throws when `j` is not an object. -/
def PointShape.fromJson : Json → Except String PointShape
  | Json.obj fields => do
      let st ← (match jfind fields "shape_type" with
        | none => Except.ok ShapeType.ELLIPSE
        | some (Json.str s) => Except.ok (fromJsonShapeType s).1
        | some _ => Except.error "shape_type")
      let w ← getNumD fields "width" 1
      let h ← getNumD fields "height" 1
      let wt ← getNumD fields "width_tolerance" 0
      let ht ← getNumD fields "height_tolerance" 0
      let a ← getNumD fields "angle_deg" 0
      Except.ok ⟨st, w, h, wt, ht, a⟩
  | _ => Except.error "shape"

/-- `to_vec_2_temp` (header lines 536-540): reads `x` and `y` with
default 0; throws when the argument is not an object (in particular on
the `nlohmann::json()` null produced for an absent key). -/
def toVec2Temp : Json → Except String Vec2
  | Json.obj fields => do
      let x ← getNumD fields "x" 0
      let y ← getNumD fields "y" 0
      Except.ok ⟨x, y⟩
  | _ => Except.error "to_vec_2_temp"

/-- `to_json_temp` (header lines 544-551). -/
def toJsonTemp (v : Vec2) : Json :=
  Json.obj [("x", Json.num v.x), ("y", Json.num v.y)]

/-- `to_json(nlohmann::json&, const Point&)` (header lines 554-567). -/
def Point.toJson (v : Point) : Json :=
  Json.obj [
    ("position", toJsonTemp v.position),
    ("precise_position", toJsonTemp v.precisePosition),
    ("shape", PointShape.toJson v.shape),
    ("pressure", Json.num v.pressure),
    ("tangential_pressure", Json.num v.tangentialPressure),
    ("twist_deg", Json.num v.twistDeg),
    ("tilt_x_deg", Json.num v.tiltXDeg),
    ("tilt_y_deg", Json.num v.tiltYDeg)
  ]

/-- `from_json(const nlohmann::json&, Point&)` (header lines 570-583):
`position` and `precise_position` are looked up with a null default and
then handed to `to_vec_2_temp`, which throws on the null. -/
def Point.fromJson : Json → Except String Point
  | Json.obj fields => do
      let jp := (jfind fields "position").getD Json.null
      let jpp := (jfind fields "precise_position").getD Json.null
      let pos ← toVec2Temp jp
      let ppos ← toVec2Temp jpp
      let shape ← (match jfind fields "shape" with
        | none => Except.ok defaultPointShape
        | some js => PointShape.fromJson js)
      let pr ← getNumD fields "pressure" 0
      let tp ← getNumD fields "tangential_pressure" 0
      let tw ← getNumD fields "twist_deg" 0
      let tx ← getNumD fields "tilt_x_deg" 0
      let ty ← getNumD fields "tilt_y_deg" 0
      Except.ok ⟨pos, ppos, shape, pr, tp, tw, tx, ty⟩
  | _ => Except.error "point"

/-! ## PointerEventArgs (header lines 586-985) -/

/-- Modelled from the spec: the string value of
`EventArgs::EVENT_TYPE_UNKNOWN`, whose definition lives in the
implementation file absent from the sources ("An unknown event type",
header line 72).  No claim depends on the exact string. -/
def EVENT_TYPE_UNKNOWN : String := "unknown"

/-- Modelled from the spec: the string value of
`PointerEventArgs::TYPE_UNKNOWN` ("the unknown pointer type", header
line 805; spec section 6 documents the decode default as `unknown`). -/
def TYPE_UNKNOWN : String := "unknown"

/-- `PointerEventArgs` (header lines 595-921), restricted to the
serialized members.  The type is recursive through the coalesced and
predicted event lists, hence an inductive with a single constructor.
Machine-integer members are unbounded `Nat` / `Int`; the JSON layer
applies the `static_cast` wrapping the C++ types impose. -/
inductive PointerEventArgs where
  | mk :
      (eventType : String) →
      (timestampMicros : Nat) →
      (detail : Nat) →
      (point : Point) →
      (pointerId : Nat) →
      (deviceId : Int) →
      (pointerIndex : Int) →
      (sequenceIndex : Nat) →
      (deviceType : String) →
      (isCoalesced : Bool) →
      (isPredicted : Bool) →
      (isPrimary : Bool) →
      (button : Int) →
      (buttons : Nat) →
      (modifiers : Nat) →
      (coalescedPointerEvents : List PointerEventArgs) →
      (predictedPointerEvents : List PointerEventArgs) →
      (estimatedProperties : List String) →
      (estimatedPropertiesExpectingUpdates : List String) →
      PointerEventArgs

def PointerEventArgs.eventType : PointerEventArgs → String
  | .mk a _ _ _ _ _ _ _ _ _ _ _ _ _ _ _ _ _ _ => a

def PointerEventArgs.timestampMicros : PointerEventArgs → Nat
  | .mk _ a _ _ _ _ _ _ _ _ _ _ _ _ _ _ _ _ _ => a

def PointerEventArgs.detail : PointerEventArgs → Nat
  | .mk _ _ a _ _ _ _ _ _ _ _ _ _ _ _ _ _ _ _ => a

def PointerEventArgs.point : PointerEventArgs → Point
  | .mk _ _ _ a _ _ _ _ _ _ _ _ _ _ _ _ _ _ _ => a

def PointerEventArgs.pointerId : PointerEventArgs → Nat
  | .mk _ _ _ _ a _ _ _ _ _ _ _ _ _ _ _ _ _ _ => a

def PointerEventArgs.deviceId : PointerEventArgs → Int
  | .mk _ _ _ _ _ a _ _ _ _ _ _ _ _ _ _ _ _ _ => a

def PointerEventArgs.pointerIndex : PointerEventArgs → Int
  | .mk _ _ _ _ _ _ a _ _ _ _ _ _ _ _ _ _ _ _ => a

def PointerEventArgs.sequenceIndex : PointerEventArgs → Nat
  | .mk _ _ _ _ _ _ _ a _ _ _ _ _ _ _ _ _ _ _ => a

def PointerEventArgs.deviceType : PointerEventArgs → String
  | .mk _ _ _ _ _ _ _ _ a _ _ _ _ _ _ _ _ _ _ => a

def PointerEventArgs.isCoalesced : PointerEventArgs → Bool
  | .mk _ _ _ _ _ _ _ _ _ a _ _ _ _ _ _ _ _ _ => a

def PointerEventArgs.isPredicted : PointerEventArgs → Bool
  | .mk _ _ _ _ _ _ _ _ _ _ a _ _ _ _ _ _ _ _ => a

def PointerEventArgs.isPrimary : PointerEventArgs → Bool
  | .mk _ _ _ _ _ _ _ _ _ _ _ a _ _ _ _ _ _ _ => a

def PointerEventArgs.button : PointerEventArgs → Int
  | .mk _ _ _ _ _ _ _ _ _ _ _ _ a _ _ _ _ _ _ => a

def PointerEventArgs.buttons : PointerEventArgs → Nat
  | .mk _ _ _ _ _ _ _ _ _ _ _ _ _ a _ _ _ _ _ => a

def PointerEventArgs.modifiers : PointerEventArgs → Nat
  | .mk _ _ _ _ _ _ _ _ _ _ _ _ _ _ a _ _ _ _ => a

def PointerEventArgs.coalescedPointerEvents : PointerEventArgs → List PointerEventArgs
  | .mk _ _ _ _ _ _ _ _ _ _ _ _ _ _ _ a _ _ _ => a

def PointerEventArgs.predictedPointerEvents : PointerEventArgs → List PointerEventArgs
  | .mk _ _ _ _ _ _ _ _ _ _ _ _ _ _ _ _ a _ _ => a

def PointerEventArgs.estimatedProperties : PointerEventArgs → List String
  | .mk _ _ _ _ _ _ _ _ _ _ _ _ _ _ _ _ _ a _ => a

def PointerEventArgs.estimatedPropertiesExpectingUpdates : PointerEventArgs → List String
  | .mk _ _ _ _ _ _ _ _ _ _ _ _ _ _ _ _ _ _ a => a

/-- The default-constructed `PointerEventArgs` (member initializers,
header lines 859-917, base `EventArgs` lines 74-91). -/
def defaultPointerEventArgs : PointerEventArgs :=
  .mk EVENT_TYPE_UNKNOWN 0 0 defaultPoint 0 0 0 0 TYPE_UNKNOWN
    false false false 0 0 0 [] [] [] []

mutual

/-- `to_json(nlohmann::json&, const PointerEventArgs&)` (header lines
936-960). -/
def PointerEventArgs.toJson : PointerEventArgs → Json
  | .mk et ts dt pt pid did pidx seq dty ic ip ipr b bs ms coal pred est exp =>
      Json.obj [
        ("event_type", Json.str et),
        ("timestamp_micros", Json.num (ts : Rat)),
        ("detail", Json.num (dt : Rat)),
        ("point", Point.toJson pt),
        ("pointer_id", Json.num (pid : Rat)),
        ("device_id", Json.num (did : Rat)),
        ("pointer_index", Json.num (pidx : Rat)),
        ("sequence_index", Json.num (seq : Rat)),
        ("device_type", Json.str dty),
        ("is_coalesced", Json.bool ic),
        ("is_predicted", Json.bool ip),
        ("is_primary", Json.bool ipr),
        ("button", Json.num (b : Rat)),
        ("buttons", Json.num (bs : Rat)),
        ("modifiers", Json.num (ms : Rat)),
        ("coalesced_pointer_events", Json.arr (toJsonList coal)),
        ("predicted_pointer_events", Json.arr (toJsonList pred)),
        ("estimated_properties", Json.arr (est.map Json.str)),
        ("estimated_properties_expecting_updates", Json.arr (exp.map Json.str))
      ]

/-- Serialization of an event vector, element by element. -/
def toJsonList : List PointerEventArgs → List Json
  | [] => []
  | e :: es => PointerEventArgs.toJson e :: toJsonList es

end

/-- A found value is smaller than the field list containing it
(termination measure fact for the recursive decoder). -/
def jfind_sizeOf_lt (fields : List (String × Json)) (key : String) (v : Json)
    (h : jfind fields key = some v) : sizeOf v < sizeOf fields := by
  induction fields with
  | nil => simp [jfind] at h
  | cons kv rest ih =>
      obtain ⟨k, w⟩ := kv
      by_cases hk : k = key
      · rw [jfind, if_pos hk] at h
        cases h
        simp only [List.cons.sizeOf_spec, Prod.mk.sizeOf_spec]
        omega
      · rw [jfind, if_neg hk] at h
        have := ih h
        simp only [List.cons.sizeOf_spec, Prod.mk.sizeOf_spec]
        omega

mutual

/-- `from_json(const nlohmann::json&, PointerEventArgs&)` (header lines
963-985).  Note line 984: the expecting-updates set is read from the
misspelled key `estimated_properties_expecting_updatess`.  Reads are
`j.value(key, default)`: absent keys yield the defaults of lines
965-984; a present key of the wrong kind, or a non-object argument,
throws. -/
def PointerEventArgs.fromJson (j : Json) : Except String PointerEventArgs :=
  match j with
  | Json.obj fields => do
      let et ← getStrD fields "event_type" EVENT_TYPE_UNKNOWN
      let ts ← getNumD fields "timestamp_micros" 0
      let dt ← getNumD fields "detail" 0
      let pt ← (match jfind fields "point" with
        | none => Except.ok defaultPoint
        | some jp => Point.fromJson jp)
      let pid ← getNumD fields "pointer_id" 0
      let did ← getNumD fields "device_id" 0
      let pidx ← getNumD fields "pointer_index" 0
      let seq ← getNumD fields "sequence_index" 0
      let dty ← getStrD fields "device_type" TYPE_UNKNOWN
      let ic ← getBoolD fields "is_coalesced" false
      let ip ← getBoolD fields "is_predicted" false
      let ipr ← getBoolD fields "is_primary" false
      let b ← getNumD fields "button" 0
      let bs ← getNumD fields "buttons" 0
      let ms ← getNumD fields "modifiers" 0
      let coal ← (match hc : jfind fields "coalesced_pointer_events" with
        | none => Except.ok []
        | some (Json.arr l) => fromJsonList l
        | some _ => Except.error "coalesced_pointer_events")
      let pred ← (match hp : jfind fields "predicted_pointer_events" with
        | none => Except.ok []
        | some (Json.arr l) => fromJsonList l
        | some _ => Except.error "predicted_pointer_events")
      let est ← getStrSetD fields "estimated_properties"
      let exp ← getStrSetD fields "estimated_properties_expecting_updatess"
      Except.ok (.mk et (ratToU 64 ts) (ratToU 64 dt) pt (ratToU 64 pid)
        (ratToI 64 did) (ratToI 64 pidx) (ratToU 64 seq) dty ic ip ipr
        (ratToI 16 b) (ratToU 16 bs) (ratToU 16 ms) coal pred est exp)
  | _ => Except.error "pointer_event_args"
termination_by sizeOf j
decreasing_by
  · have := jfind_sizeOf_lt fields "coalesced_pointer_events" _ hc
    simp only [Json.obj.sizeOf_spec, Json.arr.sizeOf_spec] at *
    omega
  · have := jfind_sizeOf_lt fields "predicted_pointer_events" _ hp
    simp only [Json.obj.sizeOf_spec, Json.arr.sizeOf_spec] at *
    omega

/-- Deserialization of an event vector, element by element
(`get<std::vector<PointerEventArgs>>`). -/
def fromJsonList (l : List Json) : Except String (List PointerEventArgs) :=
  match l with
  | [] => Except.ok []
  | x :: xs => do
      let e ← PointerEventArgs.fromJson x
      let es ← fromJsonList xs
      Except.ok (e :: es)
termination_by sizeOf l
decreasing_by
  · simp only [List.cons.sizeOf_spec]
    omega
  · simp only [List.cons.sizeOf_spec]
    omega

end

mutual

/-- The normal form an event assumes after one encode / decode cycle:
unsigned fields wrap to their machine width, signed fields to their
signed width, the estimated-property sets come back sorted without
duplicates, the expecting-updates set is lost to the misspelled decoder
key, and the nested event lists normalize recursively. -/
def normEvent : PointerEventArgs → PointerEventArgs
  | .mk et ts dt pt pid did pidx seq dty ic ip ipr b bs ms coal pred est _exp =>
      .mk et (normU 64 ts) (normU 64 dt) pt (normU 64 pid)
        (normI 64 did) (normI 64 pidx) (normU 64 seq) dty ic ip ipr
        (normI 16 b) (normU 16 bs) (normU 16 ms)
        (normEventList coal) (normEventList pred) (sortDedup est) []

/-- Normal form of an event list. -/
def normEventList : List PointerEventArgs → List PointerEventArgs
  | [] => []
  | e :: es => normEvent e :: normEventList es

end

/-! ## PointerEvents dispatcher (header lines 995-1192)

The body of `PointerEvents::_dispatchPointerEvent` lives in the
implementation file absent from the sources; the routing algorithm is
modelled from spec section 4.1. -/

/-- Modelled from the spec: the logical type of a pointer event, the
selector for the five type-specific channels (spec section 4.1, header
lines 1095-1136). -/
inductive LogicalType where
  | down : LogicalType
  | move : LogicalType
  | up : LogicalType
  | cancel : LogicalType
  | update : LogicalType
deriving DecidableEq

/-- Modelled from the spec: an event as seen by the dispatcher — its
logical type is all the routing inspects. -/
structure DispatchEvent where
  lt : LogicalType

/-- Identifier of an event channel, used to record which channels a
dispatch invoked. -/
inductive ChannelId where
  | generic : ChannelId
  | down : ChannelId
  | move : ChannelId
  | up : ChannelId
  | cancel : ChannelId
  | update : ChannelId
deriving DecidableEq

/-- Modelled from the spec: a subscriber consumes the event by
returning `true`; `ofNotifyEvent` walks subscribers in order,
short-circuits on consumption and reports whether any subscriber
consumed the event (spec section 4.1: "a subscriber signals consumption
..., which short-circuits remaining same-channel subscribers"). -/
def ofNotifyEvent (subs : List (DispatchEvent → Bool)) (e : DispatchEvent) : Bool :=
  match subs with
  | [] => false
  | f :: fs => if f e then true else ofNotifyEvent fs e

/-- Modelled from the spec: the per-window dispatcher's six channels
(header lines 1089-1136), each a subscriber list in priority order. -/
structure PointerEventsModel where
  pointerEvent : List (DispatchEvent → Bool)
  pointerDown : List (DispatchEvent → Bool)
  pointerUp : List (DispatchEvent → Bool)
  pointerMove : List (DispatchEvent → Bool)
  pointerCancel : List (DispatchEvent → Bool)
  pointerUpdate : List (DispatchEvent → Bool)

/-- The specific channel selected by an event's logical type. -/
def specificChannel (d : PointerEventsModel) : LogicalType → List (DispatchEvent → Bool)
  | LogicalType.down => d.pointerDown
  | LogicalType.move => d.pointerMove
  | LogicalType.up => d.pointerUp
  | LogicalType.cancel => d.pointerCancel
  | LogicalType.update => d.pointerUpdate

/-- The channel identifier for a logical type. -/
def specificChannelId : LogicalType → ChannelId
  | LogicalType.down => ChannelId.down
  | LogicalType.move => ChannelId.move
  | LogicalType.up => ChannelId.up
  | LogicalType.cancel => ChannelId.cancel
  | LogicalType.update => ChannelId.update

/-- Modelled from the spec: `PointerEvents::_dispatchPointerEvent`
(declared header lines 1139-1143, body in the missing implementation
file; algorithm from spec section 4.1): (a) invoke the generic
`pointerEvent` channel, and stop returning `true` if a subscriber
consumed the event; (b) otherwise invoke the one specific channel
selected by the event's logical type and return whether a subscriber
consumed it.  The second component lists the channels invoked, in
order. -/
def dispatchPointerEvent (d : PointerEventsModel) (e : DispatchEvent) :
    Bool × List ChannelId :=
  if ofNotifyEvent d.pointerEvent e then
    (true, [ChannelId.generic])
  else
    (ofNotifyEvent (specificChannel d e.lt) e,
     [ChannelId.generic, specificChannelId e.lt])

/-! ## Estimated-property reconciliation (header lines 741-750)

The body of `PointerEventArgs::updateEstimatedPropertiesWithEvent`
lives in the implementation file absent from the sources; modelled from
spec section 4.3 and the header contract of lines 741-749. -/

/-- Modelled from the spec: the state of an event taking part in the
estimated-property protocol — its identity, its two property-name sets
and its property values (abstracted to one rational per property
name). -/
structure EstEvent where
  pointerId : Nat
  sequenceIndex : Nat
  estimatedProperties : List String
  estimatedPropertiesExpectingUpdates : List String
  values : String → Rat

/-- Modelled from the spec: a follow-up correction event — it carries
the producer's sequence index, the names of the properties it corrects
and the corrected values. -/
structure EstCorrection where
  sequenceIndex : Nat
  corrected : List String
  values : String → Rat

/-- Modelled from the spec:
`PointerEventArgs::updateEstimatedPropertiesWithEvent` (declared header
lines 741-750, body in the missing implementation file; contract from
spec section 4.3): succeed only when the correction carries the same
sequence index and every corrected property name is in both
`estimatedProperties` and `estimatedPropertiesExpectingUpdates`; on
success update the affected values in place, drop the corrected names
from `estimatedPropertiesExpectingUpdates` and keep them in
`estimatedProperties`; otherwise return `false` and mutate nothing. -/
def updateEstimatedPropertiesWithEvent (self : EstEvent) (other : EstCorrection) :
    Bool × EstEvent :=
  if other.sequenceIndex = self.sequenceIndex ∧
      ∀ p ∈ other.corrected, p ∈ self.estimatedProperties ∧
        p ∈ self.estimatedPropertiesExpectingUpdates then
    (true,
     { self with
       estimatedPropertiesExpectingUpdates :=
         self.estimatedPropertiesExpectingUpdates.filter
           (fun p => !(other.corrected.contains p)),
       values := fun p => if other.corrected.contains p then other.values p
                          else self.values p })
  else (false, self)

/-! ## PointerStroke (header lines 1335-1398)

The body of `PointerStroke::add` lives in the implementation file
absent from the sources; modelled from spec sections 3 and 4.4.  The
header does declare the stored fields (lines 1385-1396): the fixed
pointer id (a `std::size_t` with a `-1` "unset" sentinel, embedded as
`Option Nat`), the running sequence-index extrema, and the event list;
the timestamp extrema are derived from the events. -/

/-- The event-type constants relevant to a stroke
(`POINTER_UP` / `POINTER_CANCEL` / `POINTER_LEAVE`, header lines
813-832; the values live in the missing implementation file, following
the W3C names). -/
def POINTER_DOWN : String := "pointerdown"

def POINTER_MOVE : String := "pointermove"

def POINTER_UP : String := "pointerup"

def POINTER_CANCEL : String := "pointercancel"

def POINTER_LEAVE : String := "pointerleave"

/-- Modelled from the spec: an event as seen by a stroke — identity,
ordering data and event type. -/
structure StrokeEvent where
  pointerId : Nat
  sequenceIndex : Nat
  timestampMicros : Nat
  eventType : String
deriving DecidableEq

/-- `PointerStroke` stored fields (header lines 1385-1396).
`_pointerId` is `none` for the `std::size_t(-1)` "no id yet" sentinel;
the sequence extrema start at the `uint64_t` max / lowest
initializers. -/
structure PointerStroke where
  _pointerId : Option Nat
  _minSequenceIndex : Nat
  _maxSequenceIndex : Nat
  _events : List StrokeEvent
deriving DecidableEq

/-- The default-constructed `PointerStroke`. -/
def defaultPointerStroke : PointerStroke :=
  { _pointerId := none, _minSequenceIndex := 2 ^ 64 - 1,
    _maxSequenceIndex := 0, _events := [] }

/-- A terminal event ends a stroke: `pointerup` or `pointercancel`
(header lines 1337-1338). -/
def isTerminalEvent (e : StrokeEvent) : Bool :=
  e.eventType = POINTER_UP || e.eventType = POINTER_CANCEL

/-- Modelled from the spec: the stroke already holds a terminal
(up / cancel) event (spec section 3: finished "once an up/cancel event
has been added"). -/
def PointerStroke.containsTerminal (s : PointerStroke) : Bool :=
  s._events.any isTerminalEvent

/-- Modelled from the spec: a mouse-leave-derived cleanup event, the
one post-terminal event a stroke still accepts (spec section 4.4). -/
def isMouseLeaveCleanup (e : StrokeEvent) : Bool :=
  e.eventType = POINTER_LEAVE

/-- `PointerStroke::minTimestampMicros` (header line 1362), derived
from the stored events; the fold starts from the `uint64_t` max, the
value an empty scan leaves. -/
def PointerStroke.minTimestampMicros (s : PointerStroke) : Nat :=
  (s._events.map StrokeEvent.timestampMicros).foldr min (2 ^ 64 - 1)

/-- `PointerStroke::maxTimestampMicros` (header line 1365), derived
from the stored events. -/
def PointerStroke.maxTimestampMicros (s : PointerStroke) : Nat :=
  (s._events.map StrokeEvent.timestampMicros).foldr max 0

/-- Modelled from the spec: `PointerStroke::add` (declared header lines
1348-1350, body in the missing implementation file; contract from spec
section 4.4): reject — returning `false` with no mutation — an event
arriving after a terminal event unless it is a mouse-leave-derived
cleanup, and an event whose pointer id differs from the id fixed by the
first successful add; otherwise append it and update the running
extrema. -/
def PointerStroke.add (s : PointerStroke) (e : StrokeEvent) : Bool × PointerStroke :=
  if s.containsTerminal && !(isMouseLeaveCleanup e) then
    (false, s)
  else if s._pointerId.isSome && !(s._pointerId = some e.pointerId) then
    (false, s)
  else
    (true,
     { _pointerId := some e.pointerId,
       _minSequenceIndex := min s._minSequenceIndex e.sequenceIndex,
       _maxSequenceIndex := max s._maxSequenceIndex e.sequenceIndex,
       _events := s._events ++ [e] })

/-! ## PointerEventCollection (header lines 1475-1535)

The operation bodies live in the implementation file absent from the
sources; modelled from spec sections 3 and 4.4.  The C++ index maps a
pointer id to references into the owning `_events` vector; a reference
is embedded as the referenced event value, and the spec invariant
"every reference in the index points to an element currently present in
the owning sequence" becomes membership of the master list. -/

/-- Modelled from the spec: an event as seen by the collection —
identity plus ordering payload. -/
structure ColEvent where
  pointerId : Nat
  sequenceIndex : Nat
deriving DecidableEq

/-- `PointerEventCollection` stored fields (header lines 1528-1534):
the append-ordered master list and the per-pointer index (a
`std::map`, embedded as an association list with distinct keys). -/
structure PointerEventCollection where
  _events : List ColEvent
  _eventsForPointerId : List (Nat × List ColEvent)
deriving DecidableEq

/-- The empty `PointerEventCollection`. -/
def emptyPointerEventCollection : PointerEventCollection := ⟨[], []⟩

/-- `std::map::find` on the per-pointer index: the bucket stored for a
pointer id, if any. -/
def bfind : List (Nat × List ColEvent) → Nat → Option (List ColEvent)
  | [], _ => none
  | (k, l) :: rest, id => if k = id then some l else bfind rest id

/-- Appending an event to its per-pointer bucket, creating the bucket
when the id is new. -/
def addToBucket : List (Nat × List ColEvent) → ColEvent → List (Nat × List ColEvent)
  | [], e => [(e.pointerId, [e])]
  | (k, l) :: rest, e =>
      if k = e.pointerId then (k, l ++ [e]) :: rest
      else (k, l) :: addToBucket rest e

/-- Modelled from the spec: `PointerEventCollection::add` (declared
header line 1504; spec section 4.4: append to the master sequence and
to the per-pointer index, creating the bucket if new). -/
def PointerEventCollection.add (c : PointerEventCollection) (e : ColEvent) :
    PointerEventCollection :=
  { _events := c._events ++ [e],
    _eventsForPointerId := addToBucket c._eventsForPointerId e }

/-- Modelled from the spec:
`PointerEventCollection::removeEventsForPointerId` (declared header
lines 1506-1508; spec section 4.4: delete all entries for the id from
both structures). -/
def PointerEventCollection.removeEventsForPointerId
    (c : PointerEventCollection) (pointerId : Nat) : PointerEventCollection :=
  { _events := c._events.filter (fun e => e.pointerId ≠ pointerId),
    _eventsForPointerId := c._eventsForPointerId.filter (fun kv => kv.1 ≠ pointerId) }

/-- `PointerEventCollection::hasPointerId` (header line 1500): the
index holds a bucket for the id. -/
def PointerEventCollection.hasPointerId (c : PointerEventCollection)
    (pointerId : Nat) : Bool :=
  (bfind c._eventsForPointerId pointerId).isSome

/-- `PointerEventCollection::numPointers` (header line 1495): the
number of index buckets. -/
def PointerEventCollection.numPointers (c : PointerEventCollection) : Nat :=
  c._eventsForPointerId.length

/-- `PointerEventCollection::eventsForPointerId` (header line 1516):
the bucket for the id, or empty if none. -/
def PointerEventCollection.eventsForPointerId (c : PointerEventCollection)
    (pointerId : Nat) : List ColEvent :=
  (bfind c._eventsForPointerId pointerId).getD []

/-- `PointerEventCollection::firstEventForPointerId` (header lines
1518-1521): the first referenced event, or null when the id is
absent. -/
def PointerEventCollection.firstEventForPointerId (c : PointerEventCollection)
    (pointerId : Nat) : Option ColEvent :=
  (bfind c._eventsForPointerId pointerId).bind List.head?

/-- `PointerEventCollection::lastEventForPointerId` (header lines
1523-1526). -/
def PointerEventCollection.lastEventForPointerId (c : PointerEventCollection)
    (pointerId : Nat) : Option ColEvent :=
  (bfind c._eventsForPointerId pointerId).bind List.getLast?

/-- The collection's integrity invariant (spec section 3): every event
referenced from a bucket is present in the owning master sequence and
carries the bucket's pointer id, the `std::map` keys are distinct and
no bucket is empty. -/
def CollectionInv (c : PointerEventCollection) : Prop :=
  (∀ kv ∈ c._eventsForPointerId, ∀ e ∈ kv.2,
      e ∈ c._events ∧ e.pointerId = kv.1) ∧
  (c._eventsForPointerId.map Prod.fst).Nodup ∧
  (∀ kv ∈ c._eventsForPointerId, kv.2 ≠ [])

/-! ## PointShape axis-aligned size (header lines 172-217)

The body of `PointShape::_calculateAxisAlignedSize` lives in the
implementation file absent from the sources; modelled from spec section
3 over the real numbers ("Derives an axis-aligned bounding width/height
by rotating the shape's half-extents by `angle` and taking the bounding
box"). -/

/-- Modelled from the spec: a shape with real-valued extent and angle,
the geometric view of `PointShape` for the bounding-box computation. -/
structure PointShapeR where
  width : ℝ
  height : ℝ
  angleDeg : ℝ

/-- Modelled from the spec: `PointShape::axisAlignedWidth` (declared
header lines 172-177, computed by the missing
`_calculateAxisAlignedSize`): width of the bounding box of the shape's
half-extents rotated by the shape angle. -/
noncomputable def axisAlignedWidth (s : PointShapeR) : ℝ :=
  |s.width * Real.cos (s.angleDeg * Real.pi / 180)| +
    |s.height * Real.sin (s.angleDeg * Real.pi / 180)|

/-- Modelled from the spec: `PointShape::axisAlignedHeight` (declared
header lines 179-184). -/
noncomputable def axisAlignedHeight (s : PointShapeR) : ℝ :=
  |s.width * Real.sin (s.angleDeg * Real.pi / 180)| +
    |s.height * Real.cos (s.angleDeg * Real.pi / 180)|

/-! ## Well-formed interchange records

`recordWF` checks exactly the reads `PointerEventArgs.fromJson`
performs: every field the decoder looks at is either absent or of the
kind the decoder expects, and a present `point` object carries
`position` and `precise_position` objects (the reads `to_vec_2_temp`
would otherwise throw on). -/

/-- A JSON string test. -/
def isJsonStr : Json → Bool
  | Json.str _ => true
  | _ => false

/-- The field is absent or numeric. -/
def numFieldWF (fields : List (String × Json)) (key : String) : Bool :=
  match jfind fields key with
  | none => true
  | some (Json.num _) => true
  | some _ => false

/-- The field is absent or a string. -/
def strFieldWF (fields : List (String × Json)) (key : String) : Bool :=
  match jfind fields key with
  | none => true
  | some (Json.str _) => true
  | some _ => false

/-- The field is absent or a boolean. -/
def boolFieldWF (fields : List (String × Json)) (key : String) : Bool :=
  match jfind fields key with
  | none => true
  | some (Json.bool _) => true
  | some _ => false

/-- The field is absent or an array of strings. -/
def strArrFieldWF (fields : List (String × Json)) (key : String) : Bool :=
  match jfind fields key with
  | none => true
  | some (Json.arr l) => l.all isJsonStr
  | some _ => false

/-- A well-formed serialized `glm::vec2`: an object with numeric
coordinates where present. -/
def vec2WF : Json → Bool
  | Json.obj fields => numFieldWF fields "x" && numFieldWF fields "y"
  | _ => false

/-- A well-formed serialized `PointShape`. -/
def shapeWF : Json → Bool
  | Json.obj fields =>
      strFieldWF fields "shape_type" && numFieldWF fields "width" &&
      numFieldWF fields "height" && numFieldWF fields "width_tolerance" &&
      numFieldWF fields "height_tolerance" && numFieldWF fields "angle_deg"
  | _ => false

/-- A well-formed serialized `Point`: `position` and
`precise_position` must be present (the decoder dereferences them with
a null default otherwise), the rest may be absent. -/
def pointWF : Json → Bool
  | Json.obj fields =>
      (match jfind fields "position" with
        | some jp => vec2WF jp
        | none => false) &&
      (match jfind fields "precise_position" with
        | some jpp => vec2WF jpp
        | none => false) &&
      (match jfind fields "shape" with
        | none => true
        | some js => shapeWF js) &&
      numFieldWF fields "pressure" && numFieldWF fields "tangential_pressure" &&
      numFieldWF fields "twist_deg" && numFieldWF fields "tilt_x_deg" &&
      numFieldWF fields "tilt_y_deg"
  | _ => false

mutual

/-- A well-formed serialized `PointerEventArgs`: each field the decoder
reads is absent or of the expected kind, recursively. -/
def recordWF (j : Json) : Bool :=
  match j with
  | Json.obj fields =>
      strFieldWF fields "event_type" &&
      numFieldWF fields "timestamp_micros" &&
      numFieldWF fields "detail" &&
      (match jfind fields "point" with
        | none => true
        | some jp => pointWF jp) &&
      numFieldWF fields "pointer_id" &&
      numFieldWF fields "device_id" &&
      numFieldWF fields "pointer_index" &&
      numFieldWF fields "sequence_index" &&
      strFieldWF fields "device_type" &&
      boolFieldWF fields "is_coalesced" &&
      boolFieldWF fields "is_predicted" &&
      boolFieldWF fields "is_primary" &&
      numFieldWF fields "button" &&
      numFieldWF fields "buttons" &&
      numFieldWF fields "modifiers" &&
      (match hc : jfind fields "coalesced_pointer_events" with
        | none => true
        | some (Json.arr l) => recordListWF l
        | some _ => false) &&
      (match hp : jfind fields "predicted_pointer_events" with
        | none => true
        | some (Json.arr l) => recordListWF l
        | some _ => false) &&
      strArrFieldWF fields "estimated_properties" &&
      strArrFieldWF fields "estimated_properties_expecting_updatess"
  | _ => false
termination_by sizeOf j
decreasing_by
  · have := jfind_sizeOf_lt fields "coalesced_pointer_events" _ hc
    simp only [Json.obj.sizeOf_spec, Json.arr.sizeOf_spec] at *
    omega
  · have := jfind_sizeOf_lt fields "predicted_pointer_events" _ hp
    simp only [Json.obj.sizeOf_spec, Json.arr.sizeOf_spec] at *
    omega

/-- Well-formedness of a serialized event list. -/
def recordListWF (l : List Json) : Bool :=
  match l with
  | [] => true
  | x :: xs => recordWF x && recordListWF xs
termination_by sizeOf l
decreasing_by
  · simp only [List.cons.sizeOf_spec]
    omega
  · simp only [List.cons.sizeOf_spec]
    omega

end

/-! ## Helper lemmas -/

@[simp]
theorem ok_bind {α β : Type} (x : α) (f : α → Except String β) :
    (Except.ok x >>= f) = f x := rfl

@[simp]
theorem error_bind {α β : Type} (s : String) (f : α → Except String β) :
    ((Except.error s : Except String α) >>= f) = Except.error s := rfl

@[simp]
theorem jfind_nil (key : String) : jfind [] key = none := rfl

@[simp]
theorem jfind_cons (k : String) (v : Json) (rest : List (String × Json))
    (key : String) :
    jfind ((k, v) :: rest) key = if k = key then some v else jfind rest key := rfl

theorem ratTruncToInt_natCast (n : Nat) : ratTruncToInt (n : Rat) = (n : Int) := by
  simp [ratTruncToInt]

theorem ratTruncToInt_intCast (i : Int) : ratTruncToInt (i : Rat) = i := by
  simp [ratTruncToInt]

@[simp]
theorem ratToU_natCast (w n : Nat) : ratToU w (n : Rat) = normU w n := by
  rw [ratToU, ratTruncToInt_natCast, normU]
  rw [show ((2 : Int) ^ w) = ((2 ^ w : Nat) : Int) by push_cast; ring]
  rw [← Int.natCast_mod, Int.toNat_natCast]

@[simp]
theorem ratToI_intCast (w : Nat) (i : Int) : ratToI w (i : Rat) = normI w i := by
  rw [ratToI, ratToU, ratTruncToInt_intCast, normI]

theorem normU_idem (w n : Nat) : normU w (normU w n) = normU w n := by
  simp [normU, Nat.mod_mod_of_dvd _ dvd_rfl]

theorem uToI_nonneg_lt (w : Nat) (n : Nat) (h : n < 2 ^ w) :
    -(2 : Int) ^ (w - 1) ≤ uToI w n ∧ uToI w n < 2 ^ (w - 1) ∨
      (2 : Int) ^ (w - 1) ≤ (n : Int) := by
  rw [uToI]
  split
  · left
    constructor
    · have : (0 : Int) ≤ (n : Int) := Int.natCast_nonneg n
      have : (0 : Int) ≤ (2 : Int) ^ (w - 1) := by positivity
      omega
    · exact_mod_cast ‹n < 2 ^ (w - 1)›
  · right
    rename_i hn
    push_neg at hn
    exact_mod_cast hn

theorem normI_fixed (w : Nat) (hw : 1 ≤ w) (i : Int)
    (hlo : -(2 : Int) ^ (w - 1) ≤ i) (hhi : i < 2 ^ (w - 1)) :
    normI w i = i := by
  have h2 : (2 : Int) ^ w = 2 ^ (w - 1) * 2 := by
    rw [← pow_succ]
    congr 1
    omega
  have hpos : (0 : Int) < 2 ^ (w - 1) := by positivity
  rw [normI, uToI]
  by_cases h0 : 0 ≤ i
  · have hmod : i % (2 : Int) ^ w = i := by
      apply Int.emod_eq_of_lt h0
      omega
    rw [hmod]
    have htn : ((i.toNat : Int)) = i := Int.toNat_of_nonneg h0
    have hlt : i.toNat < 2 ^ (w - 1) := by
      have : ((2 ^ (w - 1) : Nat) : Int) = (2 : Int) ^ (w - 1) := by push_cast; ring
      omega
    rw [if_pos hlt]
    exact htn
  · push_neg at h0
    have hmod : i % (2 : Int) ^ w = i + 2 ^ w := by
      rw [show i % (2 : Int) ^ w = (i + 2 ^ w * 1) % 2 ^ w from
        (Int.add_mul_emod_self_left i (2 ^ w) 1).symm]
      rw [mul_one]
      exact Int.emod_eq_of_lt (by omega) (by omega)
    rw [hmod]
    have htn : (((i + 2 ^ w).toNat : Int)) = i + 2 ^ w := by
      apply Int.toNat_of_nonneg
      omega
    have hge : ¬ (i + 2 ^ w).toNat < 2 ^ (w - 1) := by
      have : ((2 ^ (w - 1) : Nat) : Int) = (2 : Int) ^ (w - 1) := by push_cast; ring
      omega
    rw [if_neg hge]
    omega

theorem normI_range (w : Nat) (hw : 1 ≤ w) (i : Int) :
    -(2 : Int) ^ (w - 1) ≤ normI w i ∧ normI w i < 2 ^ (w - 1) := by
  have h2 : (2 : Int) ^ w = 2 ^ (w - 1) * 2 := by
    rw [← pow_succ]
    congr 1
    omega
  have hpos : (0 : Int) < 2 ^ w := by positivity
  have hmodlo : (0 : Int) ≤ i % 2 ^ w := Int.emod_nonneg i (by positivity)
  have hmodhi : i % 2 ^ w < 2 ^ w := Int.emod_lt_of_pos i hpos
  have hcast : (((i % 2 ^ w).toNat : Int)) = i % 2 ^ w := Int.toNat_of_nonneg hmodlo
  have hc2 : ((2 ^ (w - 1) : Nat) : Int) = (2 : Int) ^ (w - 1) := by push_cast; ring
  rw [normI, uToI]
  split
  · rename_i hlt
    constructor
    · have : (0 : Int) ≤ (2 : Int) ^ (w - 1) := by positivity
      omega
    · omega
  · rename_i hge
    push_neg at hge
    constructor
    · omega
    · omega

theorem normI_idem (w : Nat) (hw : 1 ≤ w) (i : Int) :
    normI w (normI w i) = normI w i := by
  obtain ⟨h1, h2⟩ := normI_range w hw i
  exact normI_fixed w hw _ h1 h2

/-- `sortDedup` output is sorted without duplicates, hence a fixed
point of `sortDedup`. -/
theorem sortDedup_idem (l : List String) : sortDedup (sortDedup l) = sortDedup l := by
  have hnd : (sortDedup l).Nodup :=
    (List.perm_insertionSort (· ≤ ·) l.dedup).nodup_iff.mpr l.nodup_dedup
  have hsorted : List.Sorted (· ≤ ·) (sortDedup l) :=
    List.sorted_insertionSort (· ≤ ·) l.dedup
  rw [sortDedup, List.dedup_eq_self.mpr hnd]
  exact hsorted.insertionSort_eq

/-- `to_string` and string decode of a shape type invert exactly. -/
theorem fromJsonShapeType_to_string (st : ShapeType) :
    fromJsonShapeType (to_string st) = (st, false) := by
  cases st <;> simp [to_string, fromJsonShapeType]

/-- The shape serializer round-trips exactly. -/
theorem shape_fromJson_toJson (v : PointShape) :
    PointShape.fromJson (PointShape.toJson v) = Except.ok v := by
  simp [PointShape.toJson, PointShape.fromJson, getNumD,
    fromJsonShapeType_to_string]

/-- The vector serializer round-trips exactly. -/
theorem vec2_fromJson_toJson (v : Vec2) :
    toVec2Temp (toJsonTemp v) = Except.ok v := by
  simp [toJsonTemp, toVec2Temp, getNumD]

/-- The point serializer round-trips exactly. -/
theorem point_fromJson_toJson (p : Point) :
    Point.fromJson (Point.toJson p) = Except.ok p := by
  simp [Point.toJson, Point.fromJson, getNumD, vec2_fromJson_toJson,
    shape_fromJson_toJson]

/-- Decoding an array of string literals recovers the strings. -/
theorem strsOf_map_str (l : List String) :
    strsOf (l.map Json.str) = Except.ok l := by
  induction l with
  | nil => simp [strsOf]
  | cons x xs ih => simp [strsOf, ih]

/-- List version of the round-trip normal form, given it elementwise. -/
theorem fromJsonList_toJsonList_norm (l : List PointerEventArgs)
    (H : ∀ x ∈ l, PointerEventArgs.fromJson (PointerEventArgs.toJson x) =
      Except.ok (normEvent x)) :
    fromJsonList (toJsonList l) = Except.ok (normEventList l) := by
  induction l with
  | nil => simp [toJsonList, fromJsonList, normEventList]
  | cons x xs ih =>
      rw [toJsonList, normEventList, fromJsonList]
      rw [H x (List.mem_cons_self x xs), ok_bind,
        ih (fun y hy => H y (List.mem_cons_of_mem x hy)), ok_bind]

/-- One encode / decode cycle succeeds and produces exactly the
normal form of the event. -/
theorem fromJson_toJson_norm (e : PointerEventArgs) :
    PointerEventArgs.fromJson (PointerEventArgs.toJson e) =
      Except.ok (normEvent e) := by
  suffices H : ∀ (n : Nat) (e : PointerEventArgs), sizeOf e ≤ n →
      PointerEventArgs.fromJson (PointerEventArgs.toJson e) =
        Except.ok (normEvent e) from H (sizeOf e) e le_rfl
  intro n
  induction n with
  | zero =>
      intro e h
      exfalso
      cases e
      simp only [PointerEventArgs.mk.sizeOf_spec] at h
      omega
  | succ n ih =>
      intro e he
      cases e with
      | mk et ts dt pt pid did pidx seq dty ic ip ipr b bs ms coal pred est exp =>
        simp only [PointerEventArgs.mk.sizeOf_spec] at he
        have Hc : ∀ x ∈ coal, PointerEventArgs.fromJson (PointerEventArgs.toJson x) =
            Except.ok (normEvent x) := by
          intro x hx
          have := List.sizeOf_lt_of_mem hx
          exact ih x (by omega)
        have Hp : ∀ x ∈ pred, PointerEventArgs.fromJson (PointerEventArgs.toJson x) =
            Except.ok (normEvent x) := by
          intro x hx
          have := List.sizeOf_lt_of_mem hx
          exact ih x (by omega)
        have Hcl := fromJsonList_toJsonList_norm coal Hc
        have Hpl := fromJsonList_toJsonList_norm pred Hp
        simp [PointerEventArgs.toJson, PointerEventArgs.fromJson, normEvent,
          getStrD, getNumD, getBoolD, getStrSetD, Hcl, Hpl,
          point_fromJson_toJson, strsOf_map_str]

/-- List version of normal-form idempotence, given it elementwise. -/
theorem normEventList_idem_of (l : List PointerEventArgs)
    (H : ∀ x ∈ l, normEvent (normEvent x) = normEvent x) :
    normEventList (normEventList l) = normEventList l := by
  induction l with
  | nil => simp [normEventList]
  | cons x xs ih =>
      rw [normEventList, normEventList]
      rw [H x (List.mem_cons_self x xs),
        ih (fun y hy => H y (List.mem_cons_of_mem x hy))]

/-- The round-trip normal form is idempotent. -/
theorem normEvent_idem (e : PointerEventArgs) :
    normEvent (normEvent e) = normEvent e := by
  suffices H : ∀ (n : Nat) (e : PointerEventArgs), sizeOf e ≤ n →
      normEvent (normEvent e) = normEvent e from H (sizeOf e) e le_rfl
  intro n
  induction n with
  | zero =>
      intro e h
      exfalso
      cases e
      simp only [PointerEventArgs.mk.sizeOf_spec] at h
      omega
  | succ n ih =>
      intro e he
      cases e with
      | mk et ts dt pt pid did pidx seq dty ic ip ipr b bs ms coal pred est exp =>
        simp only [PointerEventArgs.mk.sizeOf_spec] at he
        have Hc : normEventList (normEventList coal) = normEventList coal := by
          apply normEventList_idem_of
          intro x hx
          have := List.sizeOf_lt_of_mem hx
          exact ih x (by omega)
        have Hp : normEventList (normEventList pred) = normEventList pred := by
          apply normEventList_idem_of
          intro x hx
          have := List.sizeOf_lt_of_mem hx
          exact ih x (by omega)
        simp [normEvent, Hc, Hp, sortDedup_idem,
          normU_idem, normI_idem 64 (by norm_num), normI_idem 16 (by norm_num)]

/-! ## Claim theorems: JSON interchange -/

/-- C6: for every serialized pointer-event interchange record — the
output of `to_json` — decoding it, re-encoding the decoded event and
decoding again yields an event equal in every field to the first
decoded event. -/
theorem pointer_event_json_roundtrip_idempotent (e : PointerEventArgs) :
    ∃ e1, PointerEventArgs.fromJson (PointerEventArgs.toJson e) = Except.ok e1 ∧
      PointerEventArgs.fromJson (PointerEventArgs.toJson e1) = Except.ok e1 :=
  ⟨normEvent e, fromJson_toJson_norm e, by
    rw [fromJson_toJson_norm (normEvent e), normEvent_idem]⟩

/-- C10: decoding the JSON encoding of any event yields an event whose
`estimatedPropertiesExpectingUpdates` set is empty, regardless of the
original set: the encoder writes the key
`estimated_properties_expecting_updates` while the decoder reads the
misspelled key `estimated_properties_expecting_updatess`, which an
encoded record never contains. -/
theorem expecting_updates_never_recovered (e : PointerEventArgs) :
    (∃ e1, PointerEventArgs.fromJson (PointerEventArgs.toJson e) = Except.ok e1 ∧
      e1.estimatedPropertiesExpectingUpdates = []) ∧
    (∃ fields, PointerEventArgs.toJson e = Json.obj fields ∧
      jfind fields "estimated_properties_expecting_updates" =
        some (Json.arr (e.estimatedPropertiesExpectingUpdates.map Json.str)) ∧
      jfind fields "estimated_properties_expecting_updatess" = none) := by
  constructor
  · refine ⟨normEvent e, fromJson_toJson_norm e, ?_⟩
    cases e
    simp [normEvent, PointerEventArgs.estimatedPropertiesExpectingUpdates]
  · cases e
    refine ⟨_, rfl, ?_, ?_⟩ <;>
      simp [PointerEventArgs.estimatedPropertiesExpectingUpdates]

/-- C7 counterexample: an interchange record whose `point` object lacks
the `position` field makes decoding raise — `from_json(Point)` hands
the null default for `position` to `to_vec_2_temp`, whose `value()`
call throws on a non-object — contradicting "decoding never raises an
error on account of an absent field". -/
theorem from_json_raises_on_absent_position :
    exceptOk (PointerEventArgs.fromJson (Json.obj [("point", Json.obj [])])) =
      false := by
  simp [PointerEventArgs.fromJson, getStrD, getNumD, getBoolD, getStrSetD,
    Point.fromJson, toVec2Temp, exceptOk]

/-- C8: decoding a `PointShape::ShapeType` from a string is total — any
string other than `"ELLIPSE"` and `"RECTANGLE"` (the empty string
included) falls back to `ELLIPSE` with the warning logged, and the
enclosing shape record still decodes. -/
theorem shapeType_decode_total_fallback (s : String)
    (h1 : s ≠ "ELLIPSE") (h2 : s ≠ "RECTANGLE") :
    fromJsonShapeType s = (ShapeType.ELLIPSE, true) ∧
    PointShape.fromJson (Json.obj [("shape_type", Json.str s)]) =
      Except.ok defaultPointShape := by
  have hfb : fromJsonShapeType s = (ShapeType.ELLIPSE, true) := by
    rw [fromJsonShapeType]
    simp only [to_string]
    split_ifs with hne
    · rfl
    · rfl
  refine ⟨hfb, ?_⟩
  simp [PointShape.fromJson, getNumD, hfb, defaultPointShape]

/-- C8 witness: the empty string is not a recognized shape type and
falls back to `ELLIPSE` with a warning. -/
theorem shapeType_decode_total_fallback_witness :
    fromJsonShapeType "" = (ShapeType.ELLIPSE, true) ∧
    PointShape.fromJson (Json.obj [("shape_type", Json.str "")]) =
      Except.ok defaultPointShape :=
  shapeType_decode_total_fallback "" (by decide) (by decide)

/-! ## Decode totality on well-formed records -/

theorem getStrD_ok (fields : List (String × Json)) (key : String) (d : String)
    (h : strFieldWF fields key = true) : ∃ s, getStrD fields key d = Except.ok s := by
  rw [strFieldWF] at h
  rw [getStrD]
  cases hf : jfind fields key with
  | none => exact ⟨d, rfl⟩
  | some v =>
      rw [hf] at h
      cases v <;> simp_all

theorem getNumD_ok (fields : List (String × Json)) (key : String) (d : Rat)
    (h : numFieldWF fields key = true) : ∃ q, getNumD fields key d = Except.ok q := by
  rw [numFieldWF] at h
  rw [getNumD]
  cases hf : jfind fields key with
  | none => exact ⟨d, rfl⟩
  | some v =>
      rw [hf] at h
      cases v <;> simp_all

theorem getBoolD_ok (fields : List (String × Json)) (key : String) (d : Bool)
    (h : boolFieldWF fields key = true) : ∃ b, getBoolD fields key d = Except.ok b := by
  rw [boolFieldWF] at h
  rw [getBoolD]
  cases hf : jfind fields key with
  | none => exact ⟨d, rfl⟩
  | some v =>
      rw [hf] at h
      cases v <;> simp_all

theorem strsOf_ok (l : List Json) (h : l.all isJsonStr = true) :
    ∃ ss, strsOf l = Except.ok ss := by
  induction l with
  | nil => exact ⟨[], rfl⟩
  | cons x xs ih =>
      simp only [List.all_cons, Bool.and_eq_true] at h
      obtain ⟨hx, hxs⟩ := h
      obtain ⟨ss, hss⟩ := ih hxs
      cases x <;> simp [isJsonStr] at hx
      exact ⟨_, by rw [strsOf, hss]; rfl⟩

theorem getStrSetD_ok (fields : List (String × Json)) (key : String)
    (h : strArrFieldWF fields key = true) :
    ∃ ss, getStrSetD fields key = Except.ok ss := by
  rw [strArrFieldWF] at h
  rw [getStrSetD]
  cases hf : jfind fields key with
  | none => exact ⟨[], rfl⟩
  | some v =>
      rw [hf] at h
      cases v with
      | arr l =>
          have hall : l.all isJsonStr = true := h
          obtain ⟨ss, hss⟩ := strsOf_ok l hall
          exact ⟨sortDedup ss, by simp [hss]⟩
      | null => simp at h
      | bool _ => simp at h
      | num _ => simp at h
      | str _ => simp at h
      | obj _ => simp at h

theorem toVec2Temp_ok (j : Json) (h : vec2WF j = true) :
    ∃ v, toVec2Temp j = Except.ok v := by
  cases j with
  | obj fields =>
      simp only [vec2WF, Bool.and_eq_true] at h
      obtain ⟨hx, hy⟩ := h
      obtain ⟨x, hxe⟩ := getNumD_ok fields "x" 0 hx
      obtain ⟨y, hye⟩ := getNumD_ok fields "y" 0 hy
      exact ⟨⟨x, y⟩, by rw [toVec2Temp, hxe, ok_bind, hye, ok_bind]⟩
  | null => simp [vec2WF] at h
  | bool _ => simp [vec2WF] at h
  | num _ => simp [vec2WF] at h
  | str _ => simp [vec2WF] at h
  | arr _ => simp [vec2WF] at h

theorem shape_fromJson_ok (j : Json) (h : shapeWF j = true) :
    ∃ s, PointShape.fromJson j = Except.ok s := by
  cases j with
  | obj fields =>
      simp only [shapeWF, Bool.and_eq_true] at h
      obtain ⟨⟨⟨⟨⟨hst, hw⟩, hh⟩, hwt⟩, hht⟩, ha⟩ := h
      obtain ⟨w, hwe⟩ := getNumD_ok fields "width" 1 hw
      obtain ⟨ht, hhe⟩ := getNumD_ok fields "height" 1 hh
      obtain ⟨wt, hwte⟩ := getNumD_ok fields "width_tolerance" 0 hwt
      obtain ⟨htt, hhte⟩ := getNumD_ok fields "height_tolerance" 0 hht
      obtain ⟨a, hae⟩ := getNumD_ok fields "angle_deg" 0 ha
      rw [strFieldWF] at hst
      rw [PointShape.fromJson]
      cases hf : jfind fields "shape_type" with
      | none =>
          exact ⟨⟨ShapeType.ELLIPSE, w, ht, wt, htt, a⟩,
            by simp [hwe, hhe, hwte, hhte, hae]⟩
      | some v =>
          rw [hf] at hst
          cases v with
          | str s =>
              exact ⟨⟨(fromJsonShapeType s).1, w, ht, wt, htt, a⟩,
                by simp [hwe, hhe, hwte, hhte, hae]⟩
          | null => simp at hst
          | bool _ => simp at hst
          | num _ => simp at hst
          | arr _ => simp at hst
          | obj _ => simp at hst
  | null => simp [shapeWF] at h
  | bool _ => simp [shapeWF] at h
  | num _ => simp [shapeWF] at h
  | str _ => simp [shapeWF] at h
  | arr _ => simp [shapeWF] at h

theorem point_fromJson_ok (j : Json) (h : pointWF j = true) :
    ∃ p, Point.fromJson j = Except.ok p := by
  cases j with
  | obj fields =>
      simp only [pointWF, Bool.and_eq_true] at h
      obtain ⟨⟨⟨⟨⟨⟨⟨hpos, hppos⟩, hsh⟩, hpr⟩, htp⟩, htw⟩, htx⟩, hty⟩ := h
      obtain ⟨pr, hpre⟩ := getNumD_ok fields "pressure" 0 hpr
      obtain ⟨tp, htpe⟩ := getNumD_ok fields "tangential_pressure" 0 htp
      obtain ⟨tw, htwe⟩ := getNumD_ok fields "twist_deg" 0 htw
      obtain ⟨tx, htxe⟩ := getNumD_ok fields "tilt_x_deg" 0 htx
      obtain ⟨ty, htye⟩ := getNumD_ok fields "tilt_y_deg" 0 hty
      cases hjp : jfind fields "position" with
      | none => rw [hjp] at hpos; simp at hpos
      | some jp =>
      rw [hjp] at hpos
      have hposwf : vec2WF jp = true := hpos
      obtain ⟨pos, hpose⟩ := toVec2Temp_ok jp hposwf
      cases hjpp : jfind fields "precise_position" with
      | none => rw [hjpp] at hppos; simp at hppos
      | some jpp =>
      rw [hjpp] at hppos
      have hpposwf : vec2WF jpp = true := hppos
      obtain ⟨ppos, hppose⟩ := toVec2Temp_ok jpp hpposwf
      rw [Point.fromJson]
      cases hjs : jfind fields "shape" with
      | none =>
          exact ⟨⟨pos, ppos, defaultPointShape, pr, tp, tw, tx, ty⟩,
            by simp [hjp, hjpp, hpose, hppose, hpre, htpe, htwe, htxe, htye]⟩
      | some js =>
          rw [hjs] at hsh
          have hshwf : shapeWF js = true := hsh
          obtain ⟨sh, hshe⟩ := shape_fromJson_ok js hshwf
          exact ⟨⟨pos, ppos, sh, pr, tp, tw, tx, ty⟩,
            by simp [hjp, hjpp, hpose, hppose, hshe, hpre, htpe, htwe,
              htxe, htye]⟩
  | null => simp [pointWF] at h
  | bool _ => simp [pointWF] at h
  | num _ => simp [pointWF] at h
  | str _ => simp [pointWF] at h
  | arr _ => simp [pointWF] at h

/-- Decoding succeeds on every well-formed record, and on every
well-formed record list (simultaneous strong induction on size). -/
theorem recordWF_decode_aux : ∀ n : Nat,
    (∀ j : Json, sizeOf j ≤ n → recordWF j = true →
      ∃ e, PointerEventArgs.fromJson j = Except.ok e) ∧
    (∀ l : List Json, sizeOf l ≤ n → recordListWF l = true →
      ∃ es, fromJsonList l = Except.ok es) := by
  intro n
  induction n with
  | zero =>
      constructor
      · intro j hsz _
        exfalso
        cases j <;> simp at hsz
      · intro l hsz _
        exfalso
        cases l <;> simp at hsz
  | succ n ih =>
      obtain ⟨ihj, ihl⟩ := ih
      constructor
      · intro j hsz hwf
        cases j with
        | null => simp [recordWF] at hwf
        | bool _ => simp [recordWF] at hwf
        | num _ => simp [recordWF] at hwf
        | str _ => simp [recordWF] at hwf
        | arr _ => simp [recordWF] at hwf
        | obj fields =>
        simp only [recordWF, Bool.and_eq_true] at hwf
        obtain ⟨hwf, hexp⟩ := hwf
        obtain ⟨hwf, hest⟩ := hwf
        obtain ⟨hwf, hpredm⟩ := hwf
        obtain ⟨hwf, hcoalm⟩ := hwf
        obtain ⟨hwf, hms⟩ := hwf
        obtain ⟨hwf, hbs⟩ := hwf
        obtain ⟨hwf, hb⟩ := hwf
        obtain ⟨hwf, hipr⟩ := hwf
        obtain ⟨hwf, hip⟩ := hwf
        obtain ⟨hwf, hic⟩ := hwf
        obtain ⟨hwf, hdty⟩ := hwf
        obtain ⟨hwf, hseq⟩ := hwf
        obtain ⟨hwf, hpidx⟩ := hwf
        obtain ⟨hwf, hdid⟩ := hwf
        obtain ⟨hwf, hpid⟩ := hwf
        obtain ⟨hwf, hptm⟩ := hwf
        obtain ⟨hwf, hdt⟩ := hwf
        obtain ⟨het, hts⟩ := hwf
        obtain ⟨et, hete⟩ := getStrD_ok fields "event_type" EVENT_TYPE_UNKNOWN het
        obtain ⟨ts, htse⟩ := getNumD_ok fields "timestamp_micros" 0 hts
        obtain ⟨dt, hdte⟩ := getNumD_ok fields "detail" 0 hdt
        obtain ⟨pid, hpide⟩ := getNumD_ok fields "pointer_id" 0 hpid
        obtain ⟨did, hdide⟩ := getNumD_ok fields "device_id" 0 hdid
        obtain ⟨pidx, hpidxe⟩ := getNumD_ok fields "pointer_index" 0 hpidx
        obtain ⟨seq, hseqe⟩ := getNumD_ok fields "sequence_index" 0 hseq
        obtain ⟨dty, hdtye⟩ := getStrD_ok fields "device_type" TYPE_UNKNOWN hdty
        obtain ⟨ic, hice⟩ := getBoolD_ok fields "is_coalesced" false hic
        obtain ⟨ip, hipe⟩ := getBoolD_ok fields "is_predicted" false hip
        obtain ⟨ipr, hipre⟩ := getBoolD_ok fields "is_primary" false hipr
        obtain ⟨b, hbe⟩ := getNumD_ok fields "button" 0 hb
        obtain ⟨bs, hbse⟩ := getNumD_ok fields "buttons" 0 hbs
        obtain ⟨ms, hmse⟩ := getNumD_ok fields "modifiers" 0 hms
        obtain ⟨est, heste⟩ := getStrSetD_ok fields "estimated_properties" hest
        obtain ⟨exp, hexpe⟩ :=
          getStrSetD_ok fields "estimated_properties_expecting_updatess" hexp
        simp only [PointerEventArgs.fromJson]
        simp only [hete, htse, hdte, ok_bind]
        cases hjpt : jfind fields "point" with
        | none =>
            simp only [hpide, hdide, hpidxe, hseqe, hdtye, hice, hipe, hipre,
              hbe, hbse, hmse, ok_bind]
            cases hjc : jfind fields "coalesced_pointer_events" with
            | none =>
                cases hjp2 : jfind fields "predicted_pointer_events" with
                | none =>
                    simp only [heste, hexpe, ok_bind]
                    exact ⟨_, rfl⟩
                | some v =>
                    rw [hjp2] at hpredm
                    cases v with
                    | arr l =>
                        have hlwf : recordListWF l = true := hpredm
                        have hl : sizeOf l ≤ n := by
                          have h1 := jfind_sizeOf_lt fields _ _ hjp2
                          simp only [Json.arr.sizeOf_spec] at h1
                          simp only [Json.obj.sizeOf_spec] at hsz
                          omega
                        obtain ⟨es, hese⟩ := ihl l hl hlwf
                        simp only [hese, heste, hexpe, ok_bind]
                        exact ⟨_, rfl⟩
                    | null => simp at hpredm
                    | bool _ => simp at hpredm
                    | num _ => simp at hpredm
                    | str _ => simp at hpredm
                    | obj _ => simp at hpredm
            | some v =>
                rw [hjc] at hcoalm
                cases v with
                | arr l =>
                    have hlwf : recordListWF l = true := hcoalm
                    have hl : sizeOf l ≤ n := by
                      have h1 := jfind_sizeOf_lt fields _ _ hjc
                      simp only [Json.arr.sizeOf_spec] at h1
                      simp only [Json.obj.sizeOf_spec] at hsz
                      omega
                    obtain ⟨es, hese⟩ := ihl l hl hlwf
                    simp only [hese, ok_bind]
                    cases hjp2 : jfind fields "predicted_pointer_events" with
                    | none =>
                        simp only [heste, hexpe, ok_bind]
                        exact ⟨_, rfl⟩
                    | some v2 =>
                        rw [hjp2] at hpredm
                        cases v2 with
                        | arr l2 =>
                            have hlwf2 : recordListWF l2 = true := hpredm
                            have hl2 : sizeOf l2 ≤ n := by
                              have h1 := jfind_sizeOf_lt fields _ _ hjp2
                              simp only [Json.arr.sizeOf_spec] at h1
                              simp only [Json.obj.sizeOf_spec] at hsz
                              omega
                            obtain ⟨es2, hese2⟩ := ihl l2 hl2 hlwf2
                            simp only [hese2, heste, hexpe, ok_bind]
                            exact ⟨_, rfl⟩
                        | null => simp at hpredm
                        | bool _ => simp at hpredm
                        | num _ => simp at hpredm
                        | str _ => simp at hpredm
                        | obj _ => simp at hpredm
                | null => simp at hcoalm
                | bool _ => simp at hcoalm
                | num _ => simp at hcoalm
                | str _ => simp at hcoalm
                | obj _ => simp at hcoalm
        | some jp =>
            rw [hjpt] at hptm
            have hptwf : pointWF jp = true := hptm
            obtain ⟨pt, hpte⟩ := point_fromJson_ok jp hptwf
            simp only [hpte, hpide, hdide, hpidxe, hseqe, hdtye, hice, hipe,
              hipre, hbe, hbse, hmse, ok_bind]
            cases hjc : jfind fields "coalesced_pointer_events" with
            | none =>
                cases hjp2 : jfind fields "predicted_pointer_events" with
                | none =>
                    simp only [heste, hexpe, ok_bind]
                    exact ⟨_, rfl⟩
                | some v =>
                    rw [hjp2] at hpredm
                    cases v with
                    | arr l =>
                        have hlwf : recordListWF l = true := hpredm
                        have hl : sizeOf l ≤ n := by
                          have h1 := jfind_sizeOf_lt fields _ _ hjp2
                          simp only [Json.arr.sizeOf_spec] at h1
                          simp only [Json.obj.sizeOf_spec] at hsz
                          omega
                        obtain ⟨es, hese⟩ := ihl l hl hlwf
                        simp only [hese, heste, hexpe, ok_bind]
                        exact ⟨_, rfl⟩
                    | null => simp at hpredm
                    | bool _ => simp at hpredm
                    | num _ => simp at hpredm
                    | str _ => simp at hpredm
                    | obj _ => simp at hpredm
            | some v =>
                rw [hjc] at hcoalm
                cases v with
                | arr l =>
                    have hlwf : recordListWF l = true := hcoalm
                    have hl : sizeOf l ≤ n := by
                      have h1 := jfind_sizeOf_lt fields _ _ hjc
                      simp only [Json.arr.sizeOf_spec] at h1
                      simp only [Json.obj.sizeOf_spec] at hsz
                      omega
                    obtain ⟨es, hese⟩ := ihl l hl hlwf
                    simp only [hese, ok_bind]
                    cases hjp2 : jfind fields "predicted_pointer_events" with
                    | none =>
                        simp only [heste, hexpe, ok_bind]
                        exact ⟨_, rfl⟩
                    | some v2 =>
                        rw [hjp2] at hpredm
                        cases v2 with
                        | arr l2 =>
                            have hlwf2 : recordListWF l2 = true := hpredm
                            have hl2 : sizeOf l2 ≤ n := by
                              have h1 := jfind_sizeOf_lt fields _ _ hjp2
                              simp only [Json.arr.sizeOf_spec] at h1
                              simp only [Json.obj.sizeOf_spec] at hsz
                              omega
                            obtain ⟨es2, hese2⟩ := ihl l2 hl2 hlwf2
                            simp only [hese2, heste, hexpe, ok_bind]
                            exact ⟨_, rfl⟩
                        | null => simp at hpredm
                        | bool _ => simp at hpredm
                        | num _ => simp at hpredm
                        | str _ => simp at hpredm
                        | obj _ => simp at hpredm
                | null => simp at hcoalm
                | bool _ => simp at hcoalm
                | num _ => simp at hcoalm
                | str _ => simp at hcoalm
                | obj _ => simp at hcoalm
      · intro l hsz hwf
        cases l with
        | nil => exact ⟨[], by rw [fromJsonList]⟩
        | cons x xs =>
            simp only [recordListWF, Bool.and_eq_true] at hwf
            obtain ⟨hx, hxs⟩ := hwf
            have hsx : sizeOf x ≤ n := by
              simp only [List.cons.sizeOf_spec] at hsz
              omega
            have hsxs : sizeOf xs ≤ n := by
              simp only [List.cons.sizeOf_spec] at hsz
              omega
            obtain ⟨e, he⟩ := ihj x hsx hx
            obtain ⟨es, hes⟩ := ihl xs hsxs hxs
            refine ⟨e :: es, ?_⟩
            rw [fromJsonList]
            simp only [he, hes, ok_bind]

theorem ratToU_zero (w : Nat) : ratToU w 0 = 0 := by
  simp [ratToU, ratTruncToInt]

theorem uToI_zero (w : Nat) : uToI w 0 = 0 := by
  rw [uToI, if_pos (Nat.two_pow_pos (w - 1))]
  rfl

theorem ratToI_zero (w : Nat) : ratToI w 0 = 0 := by
  rw [ratToI, ratToU_zero, uToI_zero]

/-- C7 (amended): decoding substitutes the in-code defaults for absent
fields and succeeds on every well-formed record — in particular the
record with every field absent decodes, without error, to the
default-constructed event (`unknown` strings, zero numerics, default
point with shape width and height 1, empty collections, `ELLIPSE`
shape).  A well-formed record is one whose present fields have the
kinds the decoder reads, and whose present `point` object carries
`position` and `precise_position`; the counterexample shows the latter
restriction is forced. -/
theorem from_json_missing_field_defaults :
    (∀ j : Json, recordWF j = true →
      exceptOk (PointerEventArgs.fromJson j) = true) ∧
    PointerEventArgs.fromJson (Json.obj []) = Except.ok defaultPointerEventArgs := by
  constructor
  · intro j hwf
    obtain ⟨e, he⟩ := (recordWF_decode_aux (sizeOf j)).1 j le_rfl hwf
    rw [he]
    rfl
  · rw [PointerEventArgs.fromJson]
    simp [getStrD, getNumD, getBoolD, getStrSetD, ratToU_zero, ratToI_zero,
      defaultPointerEventArgs]

/-- C7 witness: a record carrying only `is_primary` is well-formed and
decodes without error. -/
theorem from_json_missing_field_defaults_witness :
    recordWF (Json.obj [("is_primary", Json.bool true)]) = true ∧
    exceptOk (PointerEventArgs.fromJson
      (Json.obj [("is_primary", Json.bool true)])) = true := by
  have hwf : recordWF (Json.obj [("is_primary", Json.bool true)]) = true := by
    rw [recordWF]
    simp [strFieldWF, numFieldWF, boolFieldWF, strArrFieldWF]
  exact ⟨hwf, from_json_missing_field_defaults.1 _ hwf⟩

/-! ## Claim theorem: axis-aligned shape size -/

/-- C9: at angle 0 the axis-aligned size equals the shape size; at
angle 90 width and height swap (exactly, over the reals). -/
theorem axisAligned_size_at_0_and_90 (s : PointShapeR)
    (hw : 0 ≤ s.width) (hh : 0 ≤ s.height) :
    (s.angleDeg = 0 → axisAlignedWidth s = s.width ∧
      axisAlignedHeight s = s.height) ∧
    (s.angleDeg = 90 → axisAlignedWidth s = s.height ∧
      axisAlignedHeight s = s.width) := by
  constructor
  · intro h0
    rw [axisAlignedWidth, axisAlignedHeight, h0]
    simp [abs_of_nonneg, hw, hh]
  · intro h90
    have harg : s.angleDeg * Real.pi / 180 = Real.pi / 2 := by
      rw [h90]
      ring
    rw [axisAlignedWidth, axisAlignedHeight, harg, Real.cos_pi_div_two,
      Real.sin_pi_div_two]
    simp [abs_of_nonneg, hw, hh]

/-- C9 witness: a 3 × 5 shape at angle 0 and at angle 90. -/
theorem axisAligned_size_at_0_and_90_witness :
    axisAlignedWidth ⟨3, 5, 0⟩ = 3 ∧ axisAlignedHeight ⟨3, 5, 0⟩ = 5 ∧
    axisAlignedWidth ⟨3, 5, 90⟩ = 5 ∧ axisAlignedHeight ⟨3, 5, 90⟩ = 3 := by
  refine ⟨?_, ?_, ?_, ?_⟩
  · exact ((axisAligned_size_at_0_and_90 ⟨3, 5, 0⟩ (by norm_num)
      (by norm_num)).1 rfl).1
  · exact ((axisAligned_size_at_0_and_90 ⟨3, 5, 0⟩ (by norm_num)
      (by norm_num)).1 rfl).2
  · exact ((axisAligned_size_at_0_and_90 ⟨3, 5, 90⟩ (by norm_num)
      (by norm_num)).2 rfl).1
  · exact ((axisAligned_size_at_0_and_90 ⟨3, 5, 90⟩ (by norm_num)
      (by norm_num)).2 rfl).2

/-! ## Claim theorems: dispatch routing -/

/-- C1: a dispatch invokes the generic `pointerEvent` channel first; if
a subscriber there consumes the event, dispatch stops and returns true;
otherwise exactly the one specific channel selected by the event's
logical type is invoked as well, and the result is whether one of its
subscribers consumed the event. -/
theorem dispatch_routes_generic_then_specific (d : PointerEventsModel)
    (e : DispatchEvent) :
    (dispatchPointerEvent d e).2.head? = some ChannelId.generic ∧
    (ofNotifyEvent d.pointerEvent e = true →
      dispatchPointerEvent d e = (true, [ChannelId.generic])) ∧
    (ofNotifyEvent d.pointerEvent e = false →
      (dispatchPointerEvent d e).2 =
        [ChannelId.generic, specificChannelId e.lt] ∧
      (dispatchPointerEvent d e).1 =
        ofNotifyEvent (specificChannel d e.lt) e) := by
  by_cases hg : ofNotifyEvent d.pointerEvent e
  · simp [dispatchPointerEvent, hg]
  · simp only [Bool.not_eq_true] at hg
    simp [dispatchPointerEvent, hg]

/-- C1 witness: with a consuming subscriber on the generic channel,
dispatch stops there and returns true. -/
theorem dispatch_routes_generic_then_specific_witness :
    dispatchPointerEvent ⟨[fun _ => true], [], [], [], [], []⟩
      ⟨LogicalType.down⟩ = (true, [ChannelId.generic]) :=
  (dispatch_routes_generic_then_specific
    ⟨[fun _ => true], [], [], [], [], []⟩ ⟨LogicalType.down⟩).2.1 rfl

/-! ## Claim theorems: estimated-property reconciliation -/

/-- C2: the update succeeds exactly when the sequence indices agree and
every corrected property is in both estimated-property sets; on success
the identity is untouched, the affected values are taken from the
correction, the corrected names leave
`estimatedPropertiesExpectingUpdates` and stay in
`estimatedProperties`. -/
theorem updateEstimatedProperties_success_contract (self : EstEvent)
    (other : EstCorrection) :
    ((updateEstimatedPropertiesWithEvent self other).1 = true ↔
      (other.sequenceIndex = self.sequenceIndex ∧
        ∀ p ∈ other.corrected, p ∈ self.estimatedProperties ∧
          p ∈ self.estimatedPropertiesExpectingUpdates)) ∧
    ((updateEstimatedPropertiesWithEvent self other).1 = true →
      ((updateEstimatedPropertiesWithEvent self other).2.pointerId =
          self.pointerId ∧
        (updateEstimatedPropertiesWithEvent self other).2.sequenceIndex =
          self.sequenceIndex ∧
        (updateEstimatedPropertiesWithEvent self other).2.estimatedProperties =
          self.estimatedProperties ∧
        (updateEstimatedPropertiesWithEvent
            self other).2.estimatedPropertiesExpectingUpdates =
          self.estimatedPropertiesExpectingUpdates.filter
            (fun p => !(other.corrected.contains p)) ∧
        (∀ p ∈ other.corrected,
          (updateEstimatedPropertiesWithEvent self other).2.values p =
            other.values p) ∧
        (∀ p ∈ other.corrected,
          p ∈ (updateEstimatedPropertiesWithEvent
            self other).2.estimatedProperties))) := by
  by_cases h : other.sequenceIndex = self.sequenceIndex ∧
      ∀ p ∈ other.corrected, p ∈ self.estimatedProperties ∧
        p ∈ self.estimatedPropertiesExpectingUpdates
  · rw [updateEstimatedPropertiesWithEvent, if_pos h]
    refine ⟨by simpa using h, fun _ => ⟨rfl, rfl, rfl, rfl, ?_, ?_⟩⟩
    · intro p hp
      have hc : other.corrected.contains p = true := List.elem_eq_true_of_mem hp
      show (if other.corrected.contains p = true then other.values p
        else self.values p) = other.values p
      rw [hc]
      simp
    · intro p hp
      exact (h.2 p hp).1
  · rw [updateEstimatedPropertiesWithEvent, if_neg h]
    constructor
    · simpa using h
    · intro hfalse
      exact absurd hfalse (by simp)

/-- C2 witness: the section-8 scenario — an event at sequence 7 with
`position` estimated and expecting an update, corrected by a follow-up
at sequence 7: the update succeeds, the expecting-updates set empties,
and `position` stays estimated. -/
theorem updateEstimatedProperties_success_contract_witness :
    (updateEstimatedPropertiesWithEvent
      ⟨1, 7, ["position"], ["position"], fun _ => 0⟩
      ⟨7, ["position"], fun _ => 1⟩).1 = true ∧
    (updateEstimatedPropertiesWithEvent
      ⟨1, 7, ["position"], ["position"], fun _ => 0⟩
      ⟨7, ["position"], fun _ => 1⟩).2.estimatedPropertiesExpectingUpdates = [] ∧
    "position" ∈ (updateEstimatedPropertiesWithEvent
      ⟨1, 7, ["position"], ["position"], fun _ => 0⟩
      ⟨7, ["position"], fun _ => 1⟩).2.estimatedProperties := by
  have h := updateEstimatedProperties_success_contract
    ⟨1, 7, ["position"], ["position"], fun _ => 0⟩ ⟨7, ["position"], fun _ => 1⟩
  have h1 := h.1.mpr (by simp)
  have h2 := h.2 h1
  refine ⟨h1, ?_, h2.2.2.2.2.2 "position" (by simp)⟩
  rw [h2.2.2.2.1]
  rfl

/-- C3: a correction whose sequence index differs is refused — the
update returns false and the event is unchanged, whatever the property
names. -/
theorem updateEstimatedProperties_sequence_mismatch (self : EstEvent)
    (other : EstCorrection) (h : other.sequenceIndex ≠ self.sequenceIndex) :
    updateEstimatedPropertiesWithEvent self other = (false, self) := by
  rw [updateEstimatedPropertiesWithEvent, if_neg]
  intro hc
  exact h hc.1

/-- C3 witness: a matching property name at a mismatched sequence index
(8 against 7) is refused with no mutation. -/
theorem updateEstimatedProperties_sequence_mismatch_witness :
    updateEstimatedPropertiesWithEvent
      ⟨1, 7, ["position"], ["position"], fun _ => 0⟩
      ⟨8, ["position"], fun _ => 1⟩ =
      (false, ⟨1, 7, ["position"], ["position"], fun _ => 0⟩) :=
  updateEstimatedProperties_sequence_mismatch
    ⟨1, 7, ["position"], ["position"], fun _ => 0⟩
    ⟨8, ["position"], fun _ => 1⟩ (by decide)

/-! ## Claim theorems: stroke aggregation -/

theorem foldr_min_append (l : List Nat) (a b : Nat) :
    (l ++ [b]).foldr min a = min (l.foldr min a) b := by
  induction l with
  | nil => simp [min_comm]
  | cons x xs ih =>
      simp only [List.cons_append, List.foldr_cons, ih]
      rw [min_assoc]

theorem foldr_max_append (l : List Nat) (a b : Nat) :
    (l ++ [b]).foldr max a = max (l.foldr max a) b := by
  induction l with
  | nil => simp [max_comm]
  | cons x xs ih =>
      simp only [List.cons_append, List.foldr_cons, ih]
      rw [max_assoc]

/-- C4: `PointerStroke::add` rejects, without mutation, an event after
a terminal event unless it is a mouse-leave cleanup, and an event whose
pointer id differs from the established one; otherwise it appends the
event in order, fixes the pointer id and updates the running
sequence-index and timestamp extrema. -/
theorem pointerStroke_add_contract (s : PointerStroke) (e : StrokeEvent) :
    (s.containsTerminal = true → isMouseLeaveCleanup e = false →
      PointerStroke.add s e = (false, s)) ∧
    (∀ pid, s._pointerId = some pid → pid ≠ e.pointerId →
      PointerStroke.add s e = (false, s)) ∧
    ((s.containsTerminal = true → isMouseLeaveCleanup e = true) →
      (s._pointerId = none ∨ s._pointerId = some e.pointerId) →
      ((PointerStroke.add s e).1 = true ∧
        (PointerStroke.add s e).2._events = s._events ++ [e] ∧
        (PointerStroke.add s e).2._pointerId = some e.pointerId ∧
        (PointerStroke.add s e).2._minSequenceIndex =
          min s._minSequenceIndex e.sequenceIndex ∧
        (PointerStroke.add s e).2._maxSequenceIndex =
          max s._maxSequenceIndex e.sequenceIndex ∧
        (PointerStroke.add s e).2.minTimestampMicros =
          min s.minTimestampMicros e.timestampMicros ∧
        (PointerStroke.add s e).2.maxTimestampMicros =
          max s.maxTimestampMicros e.timestampMicros)) := by
  refine ⟨?_, ?_, ?_⟩
  · intro hterm hleave
    rw [PointerStroke.add, if_pos]
    rw [hterm, hleave]
    rfl
  · intro pid hpid hne
    rw [PointerStroke.add]
    split_ifs with h1 h2
    · rfl
    · rfl
    · exfalso
      apply h2
      rw [hpid]
      simp [hne]
  · intro hnoterm hpid
    have h1 : (s.containsTerminal && !(isMouseLeaveCleanup e)) = false := by
      cases ht : s.containsTerminal with
      | false => simp
      | true => simp [hnoterm ht]
    have h2 : (s._pointerId.isSome && !(decide (s._pointerId = some e.pointerId))) =
        false := by
      rcases hpid with h | h <;> simp [h]
    rw [PointerStroke.add, if_neg (by simp [h1]), if_neg (by simp [h2])]
    refine ⟨rfl, rfl, rfl, rfl, rfl, ?_, ?_⟩
    · simp only [PointerStroke.minTimestampMicros, List.map_append,
        List.map_cons, List.map_nil, foldr_min_append]
    · simp only [PointerStroke.maxTimestampMicros, List.map_append,
        List.map_cons, List.map_nil, foldr_max_append]

/-- C4 witness: a first event is accepted by the default stroke, lands
in the event list and sets the extrema. -/
theorem pointerStroke_add_contract_witness :
    (PointerStroke.add defaultPointerStroke ⟨5, 3, 100, POINTER_DOWN⟩).1 = true ∧
    (PointerStroke.add defaultPointerStroke
      ⟨5, 3, 100, POINTER_DOWN⟩).2._events = [⟨5, 3, 100, POINTER_DOWN⟩] ∧
    (PointerStroke.add defaultPointerStroke
      ⟨5, 3, 100, POINTER_DOWN⟩).2._minSequenceIndex = 3 := by
  have h := (pointerStroke_add_contract defaultPointerStroke
    ⟨5, 3, 100, POINTER_DOWN⟩).2.2 (by decide) (Or.inl rfl)
  refine ⟨h.1, by simpa using h.2.1, ?_⟩
  rw [h.2.2.2.1]
  decide

/-! ## Claim theorems: pointer-event collection -/

theorem addToBucket_sound (bs : List (Nat × List ColEvent)) (e : ColEvent)
    (P : ColEvent → Nat → Prop)
    (hbs : ∀ kv ∈ bs, ∀ x ∈ kv.2, P x kv.1)
    (he : P e e.pointerId) :
    ∀ kv ∈ addToBucket bs e, ∀ x ∈ kv.2, P x kv.1 := by
  induction bs with
  | nil =>
      intro kv hkv x hx
      simp only [addToBucket, List.mem_singleton] at hkv
      subst hkv
      simp only [List.mem_singleton] at hx
      subst hx
      exact he
  | cons kl rest ih =>
      obtain ⟨k, l⟩ := kl
      intro kv hkv x hx
      rw [addToBucket] at hkv
      split_ifs at hkv with hk
      · rcases List.mem_cons.mp hkv with h | h
        · subst h
          rcases List.mem_append.mp hx with h' | h'
          · exact hbs (k, l) (List.mem_cons_self _ _) x h'
          · simp only [List.mem_singleton] at h'
            subst h'
            simpa [hk] using he
        · exact hbs kv (List.mem_cons_of_mem _ h) x hx
      · rcases List.mem_cons.mp hkv with h | h
        · subst h
          exact hbs (k, l) (List.mem_cons_self _ _) x hx
        · exact ih (fun kv h => hbs kv (List.mem_cons_of_mem _ h)) kv h x hx

theorem addToBucket_keys_mem (bs : List (Nat × List ColEvent)) (e : ColEvent)
    (h : e.pointerId ∈ bs.map Prod.fst) :
    (addToBucket bs e).map Prod.fst = bs.map Prod.fst := by
  induction bs with
  | nil => simp at h
  | cons kl rest ih =>
      obtain ⟨k, l⟩ := kl
      rw [addToBucket]
      split_ifs with hk
      · simp
      · simp only [List.map_cons]
        simp only [List.map_cons] at h
        rcases List.mem_cons.mp h with h' | h'
        · exact absurd h'.symm hk
        · rw [ih h']

theorem addToBucket_keys_new (bs : List (Nat × List ColEvent)) (e : ColEvent)
    (h : e.pointerId ∉ bs.map Prod.fst) :
    (addToBucket bs e).map Prod.fst = bs.map Prod.fst ++ [e.pointerId] := by
  induction bs with
  | nil => simp [addToBucket]
  | cons kl rest ih =>
      obtain ⟨k, l⟩ := kl
      simp only [List.map_cons, List.mem_cons] at h
      push_neg at h
      rw [addToBucket]
      split_ifs with hk
      · exact absurd hk.symm h.1
      · simp only [List.map_cons, List.cons_append]
        rw [ih h.2]

theorem addToBucket_ne_nil (bs : List (Nat × List ColEvent)) (e : ColEvent)
    (hbs : ∀ kv ∈ bs, kv.2 ≠ []) :
    ∀ kv ∈ addToBucket bs e, kv.2 ≠ [] := by
  induction bs with
  | nil =>
      intro kv hkv
      simp only [addToBucket, List.mem_singleton] at hkv
      subst hkv
      simp
  | cons kl rest ih =>
      obtain ⟨k, l⟩ := kl
      intro kv hkv
      rw [addToBucket] at hkv
      split_ifs at hkv with hk
      · rcases List.mem_cons.mp hkv with h | h
        · subst h
          simp
        · exact hbs kv (List.mem_cons_of_mem _ h)
      · rcases List.mem_cons.mp hkv with h | h
        · subst h
          exact hbs (k, l) (List.mem_cons_self _ _)
        · exact ih (fun kv h => hbs kv (List.mem_cons_of_mem _ h)) kv h

theorem bfind_filter_self (bs : List (Nat × List ColEvent)) (id : Nat) :
    bfind (bs.filter (fun kv => kv.1 ≠ id)) id = none := by
  induction bs with
  | nil => rfl
  | cons kl rest ih =>
      obtain ⟨k, l⟩ := kl
      rw [List.filter_cons]
      split_ifs with hk
      · simp only [decide_eq_true_eq] at hk
        rw [bfind, if_neg hk]
        exact ih
      · exact ih

theorem bfind_filter_ne (bs : List (Nat × List ColEvent)) (id id2 : Nat)
    (hne : id2 ≠ id) :
    bfind (bs.filter (fun kv => kv.1 ≠ id)) id2 = bfind bs id2 := by
  induction bs with
  | nil => rfl
  | cons kl rest ih =>
      obtain ⟨k, l⟩ := kl
      rw [List.filter_cons]
      split_ifs with hk
      · rw [bfind, bfind]
        split_ifs with h2
        · rfl
        · exact ih
      · simp only [decide_eq_true_eq, not_not] at hk
        rw [bfind, if_neg (by rw [hk]; exact hne.symm)]
        exact ih

theorem length_filter_of_bfind (bs : List (Nat × List ColEvent)) (id : Nat)
    (hnd : (bs.map Prod.fst).Nodup) (h : (bfind bs id).isSome = true) :
    (bs.filter (fun kv => kv.1 ≠ id)).length = bs.length - 1 := by
  induction bs with
  | nil => simp [bfind] at h
  | cons kl rest ih =>
      obtain ⟨k, l⟩ := kl
      simp only [List.map_cons, List.nodup_cons] at hnd
      rw [List.filter_cons]
      rw [bfind] at h
      split_ifs with hk
      · simp only [decide_eq_true_eq] at hk
        rw [if_neg hk] at h
        have hrec := ih hnd.2 h
        have hlen : 1 ≤ rest.length := by
          cases rest with
          | nil => simp [bfind] at h
          | cons _ _ => simp
        simp only [List.length_cons]
        omega
      · simp only [decide_eq_true_eq, not_not] at hk
        subst hk
        have hfill : rest.filter (fun kv => kv.1 ≠ k) = rest := by
          apply List.filter_eq_self.mpr
          intro kv hkv
          have hmem : kv.1 ∈ rest.map Prod.fst := List.mem_map_of_mem Prod.fst hkv
          simp only [decide_eq_true_eq]
          intro hkeq
          exact hnd.1 (hkeq ▸ hmem)
        rw [hfill]
        simp

/-- C5: the collection keeps its index invariant — every indexed event
is present in the master sequence under its own pointer id, with
distinct index keys and no empty bucket — through `add` and
`removeEventsForPointerId`; and removing a present pointer id empties
its queries, decrements `numPointers` by one, leaves other ids'
buckets untouched and removes exactly that id's backing events. -/
theorem pointerEventCollection_remove_contract :
    CollectionInv emptyPointerEventCollection ∧
    (∀ c e, CollectionInv c → CollectionInv (c.add e)) ∧
    (∀ c id, CollectionInv c →
      CollectionInv (c.removeEventsForPointerId id)) ∧
    (∀ c id, CollectionInv c → c.hasPointerId id = true →
      ((c.removeEventsForPointerId id).hasPointerId id = false ∧
        (c.removeEventsForPointerId id).firstEventForPointerId id = none ∧
        (c.removeEventsForPointerId id).numPointers = c.numPointers - 1 ∧
        (∀ id2, id2 ≠ id →
          (c.removeEventsForPointerId id).eventsForPointerId id2 =
            c.eventsForPointerId id2) ∧
        (c.removeEventsForPointerId id)._events =
          c._events.filter (fun x => x.pointerId ≠ id))) := by
  refine ⟨?_, ?_, ?_, ?_⟩
  · exact ⟨by simp [emptyPointerEventCollection],
      by simp [emptyPointerEventCollection],
      by simp [emptyPointerEventCollection]⟩
  · intro c e hinv
    obtain ⟨hmem, hnd, hne⟩ := hinv
    refine ⟨?_, ?_, ?_⟩
    · exact addToBucket_sound c._eventsForPointerId e
        (fun x k => x ∈ c._events ++ [e] ∧ x.pointerId = k)
        (fun kv hkv x hx =>
          ⟨List.mem_append_left _ (hmem kv hkv x hx).1, (hmem kv hkv x hx).2⟩)
        ⟨List.mem_append_right _ (by simp), rfl⟩
    · by_cases hmemk : e.pointerId ∈ c._eventsForPointerId.map Prod.fst
      · have hk := addToBucket_keys_mem c._eventsForPointerId e hmemk
        show ((addToBucket c._eventsForPointerId e).map Prod.fst).Nodup
        rw [hk]
        exact hnd
      · have hk := addToBucket_keys_new c._eventsForPointerId e hmemk
        show ((addToBucket c._eventsForPointerId e).map Prod.fst).Nodup
        rw [hk, List.nodup_append]
        refine ⟨hnd, List.nodup_singleton _, ?_⟩
        intro a ha hb
        simp only [List.mem_singleton] at hb
        subst hb
        exact hmemk ha
    · exact addToBucket_ne_nil c._eventsForPointerId e hne
  · intro c id hinv
    obtain ⟨hmem, hnd, hne⟩ := hinv
    refine ⟨?_, ?_, ?_⟩
    · intro kv hkv x hx
      simp only [PointerEventCollection.removeEventsForPointerId] at hkv ⊢
      rw [List.mem_filter] at hkv
      obtain ⟨hkv1, hkv2⟩ := hkv
      obtain ⟨h1, h2⟩ := hmem kv hkv1 x hx
      simp only [decide_eq_true_eq] at hkv2
      exact ⟨List.mem_filter.mpr ⟨h1, by simp [h2, hkv2]⟩, h2⟩
    · exact hnd.sublist (List.Sublist.map Prod.fst (List.filter_sublist _))
    · intro kv hkv
      simp only [PointerEventCollection.removeEventsForPointerId] at hkv
      rw [List.mem_filter] at hkv
      exact hne kv hkv.1
  · intro c id hinv hhas
    obtain ⟨hmem, hnd, hneb⟩ := hinv
    refine ⟨?_, ?_, ?_, ?_, rfl⟩
    · show (bfind (c._eventsForPointerId.filter
        (fun kv => kv.1 ≠ id)) id).isSome = false
      rw [bfind_filter_self]
      rfl
    · show (bfind (c._eventsForPointerId.filter
        (fun kv => kv.1 ≠ id)) id).bind List.head? = none
      rw [bfind_filter_self]
      rfl
    · exact length_filter_of_bfind c._eventsForPointerId id hnd hhas
    · intro id2 hne2
      show (bfind (c._eventsForPointerId.filter
        (fun kv => kv.1 ≠ id)) id2).getD [] = _
      rw [bfind_filter_ne _ _ _ hne2]
      rfl

/-- C5 witness: the section-8 scenario — three down events for pointer
ids 1, 2, 3, then removal of id 2: two pointers remain, id 2 is gone
and its first-event query reports not-found. -/
theorem pointerEventCollection_remove_contract_witness :
    ((((emptyPointerEventCollection.add ⟨1, 10⟩).add ⟨2, 20⟩).add
      ⟨3, 30⟩).removeEventsForPointerId 2).hasPointerId 2 = false ∧
    ((((emptyPointerEventCollection.add ⟨1, 10⟩).add ⟨2, 20⟩).add
      ⟨3, 30⟩).removeEventsForPointerId 2).firstEventForPointerId 2 = none ∧
    ((((emptyPointerEventCollection.add ⟨1, 10⟩).add ⟨2, 20⟩).add
      ⟨3, 30⟩).removeEventsForPointerId 2).numPointers = 2 := by
  have h := pointerEventCollection_remove_contract.2.2.2
    (((emptyPointerEventCollection.add ⟨1, 10⟩).add ⟨2, 20⟩).add ⟨3, 30⟩) 2
    (by unfold CollectionInv; decide) (by decide)
  refine ⟨h.1, h.2.1, ?_⟩
  rw [h.2.2.1]
  decide

end ofx
